import Mathlib

/-!
Shallow embedding of the narrative segmentation and block-wise script
assembly engine of `src/main.py` (bolt-ia-production).

Text is modelled as `List Char` (named `Str`), Python string operations
are modelled by executable Lean functions, the specific regular
expressions of the source are hand-compiled into deterministic matchers
with the same (lazy / greedy, leftmost, non-overlapping) semantics, and
the Gemini calls are abstracted as a caller-supplied `gen : Str → Str`.
Fallible code paths (Python exceptions) are modelled with `Option`.
-/

namespace BoltIA

abbrev Str := List Char

/-- Tail-recursive list length (`len(...)`); equal to `List.length`
(`strLen_eq_length` below) but evaluates iteratively, which keeps kernel
evaluation of the embedding on long concrete inputs shallow. -/
def strLenAux : List α → Nat → Nat
  | [], acc => acc
  | _ :: rest, acc =>
    match acc with
    | 0 => strLenAux rest 1
    | n + 1 => strLenAux rest (n + 2)

def strLen (s : List α) : Nat := strLenAux s 0

/-- Python `str` whitespace predicate restricted to the ASCII whitespace
characters that occur in this code base. -/
def isPySpace (c : Char) : Bool :=
  c == ' ' || c == '\t' || c == '\n' || c == '\r' || c == '\x0b' || c == '\x0c'

/-- Python `s.strip()`: drop whitespace from both ends. -/
def pyStrip (s : Str) : Str :=
  ((s.dropWhile isPySpace).reverse.dropWhile isPySpace).reverse

/-- One step of whitespace-separated word splitting (`str.split()` with no
argument): fuelled to stay structurally recursive. -/
def pySplitWsAux : Nat → Str → List Str
  | 0, _ => []
  | fuel + 1, s =>
    let s1 := s.dropWhile isPySpace
    match s1 with
    | [] => []
    | _ :: _ =>
      s1.takeWhile (fun c => !isPySpace c) ::
        pySplitWsAux fuel (s1.dropWhile (fun c => !isPySpace c))

/-- Python `s.split()` (split on whitespace runs, dropping empties). -/
def pySplitWs (s : Str) : List Str := pySplitWsAux (strLen s + 1) s

/-- `sep.join xs`. -/
def joinSep (sep : Str) : List Str → Str
  | [] => []
  | [x] => x
  | x :: y :: rest => x ++ sep ++ joinSep sep (y :: rest)

/-- `' '.join(s.split())`: collapse every whitespace run to a single
space and drop outer whitespace.  Also models `re.sub(r'\s+', ' ',
s.strip())`, which computes the same string. -/
def collapseWs (s : Str) : Str := joinSep [' '] (pySplitWs s)

/-- Python slice `s[a:b]` for `0 ≤ a ≤ b`. -/
def pySlice (s : Str) (a b : Nat) : Str := (s.drop a).take (b - a)

/-- Python `s[-n:]` for positive `n` (the rolling context window). -/
def takeLast (n : Nat) (s : Str) : Str := s.drop (strLen s - n)

/-- ASCII lower casing, enough for the language keys used by the code. -/
def pyLowerChar (c : Char) : Char :=
  if 'A' ≤ c ∧ c ≤ 'Z' then Char.ofNat (c.toNat + 32) else c

/-- Python `s.lower()` (ASCII part). -/
def pyLower (s : Str) : Str := s.map pyLowerChar

/-- Decimal digits of a natural number, fuelled. -/
def natToStrAux : Nat → Nat → Str
  | 0, _ => []
  | fuel + 1, n =>
    if n < 10 then [Char.ofNat (48 + n)]
    else natToStrAux fuel (n / 10) ++ [Char.ofNat (48 + n % 10)]

/-- Python `str(n)` for a natural number (f-string interpolation). -/
def natToStr (n : Nat) : Str := natToStrAux (n + 1) n

/-- Total character count of a list of strings. -/
def sumLen (l : List Str) : Nat := (l.map List.length).sum

/-- `_extrair_titulo_automatico` (src/main.py:551): collapse whitespace,
take the first `max_palavras` words, append an ellipsis when words were
dropped, and hard-truncate to 120 characters. -/
def _extrair_titulo_automatico (texto : Str) (maxPalavras : Nat := 15) : Str :=
  let palavrasAll := pySplitWs texto
  let palavras := palavrasAll.take maxPalavras
  let titulo0 := joinSep [' '] palavras
  let titulo1 :=
    if strLen palavras = maxPalavras ∧ maxPalavras < strLen palavrasAll then
      titulo0 ++ "...".data
    else titulo0
  if 120 < strLen titulo1 then titulo1.take 117 ++ "...".data else titulo1

/-- One segment produced by `segmentar_narrativa_em_blocos`
(the dict documented at src/main.py:241-251). -/
structure Bloco where
  numero_bloco : Nat
  titulo_bloco : Str
  conteudo : Str
  inicio_char : Nat
  fim_char : Nat
  tipo_demarcacao : Str
  meta : Option Str
  regras : Option Str
deriving Repr, DecidableEq

/-! ### Manual-structure detection

`REGEX_ESTRUTURA_MANUAL = # PARTE.*?:(.*?)\n# META.*?:(.*?)\n# REGRAS.*?:(.*?)(?=\n# PARTE|\Z)`
with `re.DOTALL` (src/main.py:270).  The lazy quantifiers with
backtracking are compiled into ordered searches over the occurrence
lists of the delimiter literals: a lazy `.*?L` tries every occurrence of
`L` from the nearest one outward until the continuation succeeds. -/

/-- Positions of every occurrence of the literal `lit` in the scanned
suffix, nearest first (tail-recursive scan). -/
def occsAtAux (lit : Str) : Nat → Str → Nat → List Nat → List Nat
  | 0, _, _, acc => acc.reverse
  | fuel + 1, s, pos, acc =>
    let acc1 := if lit.isPrefixOf s then pos :: acc else acc
    match s with
    | [] => acc1.reverse
    | _ :: rest => occsAtAux lit fuel rest (pos + 1) acc1

/-- All splits of `s` at an occurrence of the literal `lit`, nearest
first: each element is (text before the occurrence, text after it). -/
def splitsAtLit (lit : Str) (s : Str) : List (Str × Str) :=
  (occsAtAux lit (strLen s + 1) s 0 []).map fun p => (s.take p, s.drop (p + strLen lit))

/-- Consume a literal from the front, or fail. -/
def dropLit (lit : Str) (s : Str) : Option Str :=
  if lit.isPrefixOf s then some (s.drop lit.length) else none

/-- First success of `f` over `l`, in order (the backtracking order of a
lazy quantifier). -/
def firstSome : List α → (α → Option β) → Option β
  | [], _ => none
  | a :: as, f =>
    match f a with
    | some b => some b
    | none => firstSome as f

/-- Match `REGEX_ESTRUTURA_MANUAL` at the start of the suffix `l`:
returns (match length, group 1, group 2, group 3) of the leftmost-lazy
match, or `none`. -/
def matchManualAt (l : Str) : Option (Nat × Str × Str × Str) :=
  match dropLit "# PARTE".data l with
  | none => none
  | some r0 =>
    firstSome (splitsAtLit ":".data r0) fun pa =>
    firstSome (splitsAtLit "\n# META".data pa.2) fun pg1 =>
    firstSome (splitsAtLit ":".data pg1.2) fun pb =>
    firstSome (splitsAtLit "\n# REGRAS".data pb.2) fun pg2 =>
    firstSome (splitsAtLit ":".data pg2.2) fun pc =>
    let g3 :=
      match splitsAtLit "\n# PARTE".data pc.2 with
      | pr :: _ => pr.1
      | [] => pc.2
    some (7 + strLen pa.1 + 1 + strLen pg1.1 + 7 + strLen pb.1 + 1 +
            strLen pg2.1 + 9 + strLen pc.1 + 1 + strLen g3,
          pg1.1, pg2.1, g3)

/-- One `re.finditer` scan step: absolute (start, end, groups) of every
non-overlapping match, scanning left to right (fuelled). -/
def finditerManualAux : Nat → Str → Nat → List (Nat × Nat × Str × Str × Str)
  | 0, _, _ => []
  | fuel + 1, l, pos =>
    match matchManualAt l with
    | some (mlen, g1, g2, g3) =>
      (pos, pos + mlen, g1, g2, g3) :: finditerManualAux fuel (l.drop mlen) (pos + mlen)
    | none =>
      match l with
      | [] => []
      | _ :: rest => finditerManualAux fuel rest (pos + 1)

/-- All matches of `REGEX_ESTRUTURA_MANUAL` in `texto`
(`findall` returns their group triples). -/
def finditerManual (texto : Str) : List (Nat × Nat × Str × Str × Str) :=
  finditerManualAux (strLen texto + 1) texto 0

/-- `REGEX_ESTRUTURA_MANUAL.search(texto, off)`: the first match
starting at a position `≥ off`. -/
def searchManualFrom (texto : Str) (off : Nat) : Option (Nat × Nat × Str × Str × Str) :=
  match finditerManualAux (strLen texto + 1) (texto.drop off) off with
  | [] => none
  | m :: _ => some m

/-! ### Transition words (src/main.py:276-295)

Each source pattern is a literal word wrapped in `\b` boundaries; the
words are stored bare and `hasWordMatch` implements the boundary
semantics of `re.search(r"\bW\b", s)`. -/

/-- Python `\w` (approximated: ASCII alphanumerics, underscore, and all
non-ASCII codepoints — every accented letter used by the word lists
is a word character). -/
def isWordChar (c : Char) : Bool :=
  c.isAlphanum || c == '_' || decide (127 < c.toNat)

/-- Scan for `\bW\b`: an occurrence of the literal `w` preceded and
followed by a word boundary. -/
def hasWordMatchAux (w : Str) : Option Char → Str → Bool
  | prev, s =>
    ((match prev with
      | none => true
      | some c => !isWordChar c) &&
     w.isPrefixOf s &&
     (match s.drop w.length with
      | [] => true
      | c :: _ => !isWordChar c)) ||
    (match s with
     | [] => false
     | c :: rest => hasWordMatchAux w (some c) rest)

/-- `re.search(r"\bW\b", s) is not None` for a literal word `W`. -/
def hasWordMatch (w : Str) (s : Str) : Bool := hasWordMatchAux w none s

/-- `PALAVRAS_TRANSICAO` (src/main.py:276-295), patterns as bare words. -/
def PALAVRAS_TRANSICAO : List (Str × List Str) :=
  [("português".data,
    ["Mas".data, "Porém".data, "Entretanto".data, "Contudo".data,
     "Além disso".data, "Por outro lado".data, "Enquanto isso".data,
     "Agora".data, "Depois".data, "Finalmente".data, "Primeiro".data]),
   ("inglês".data,
    ["However".data, "But".data, "Yet".data, "Meanwhile".data,
     "Moreover".data, "Furthermore".data, "Now".data, "Then".data,
     "Finally".data, "First".data, "Next".data]),
   ("francês".data,
    ["Mais".data, "Cependant".data, "Pourtant".data, "Alors".data,
     "Ensuite".data, "Enfin".data,
     ['D', Char.ofNat 39] ++ "abord".data, "Maintenant".data]),
   ("espanhol".data,
    ["Pero".data, "Sin embargo".data, "Ahora".data, "Luego".data,
     "Además".data, "Finalmente".data, "Primero".data, "Mientras".data])]

/-- `PALAVRAS_TRANSICAO.get(idioma_lower, PALAVRAS_TRANSICAO["português"])`. -/
def getTransicoes (idiomaLower : Str) : List Str :=
  match PALAVRAS_TRANSICAO.find? (fun p => p.1 == idiomaLower) with
  | some p => p.2
  | none => PALAVRAS_TRANSICAO.headD ([], []) |>.2

/-- Transition-cue detection on the first 100 characters of a paragraph
(`any(re.search(pattern, paragrafo[:100]) ...)`, src/main.py:418). -/
def temTransicao (palavrasTransicao : List Str) (paragrafo : Str) : Bool :=
  palavrasTransicao.any (fun w => hasWordMatch w (paragrafo.take 100))

/-! ### Automatic (paragraph) segmentation, src/main.py:369-482 -/

/-- `re.split(r'\n\n+', texto)`: split on each maximal run of two or
more newlines.  Tail-recursive scan: `curRev` is the reversed current
fragment, `accRev` the reversed list of finished fragments. -/
def splitParasAux : Nat → Str → Str → List Str → List Str
  | 0, s, curRev, accRev => (accRev.reverse) ++ [curRev.reverse ++ s]
  | fuel + 1, s, curRev, accRev =>
    match s with
    | [] => accRev.reverse ++ [curRev.reverse]
    | c :: rest =>
      if c = '\n' ∧ rest.head? = some '\n' then
        splitParasAux fuel ((rest.drop 1).dropWhile (fun d => d == '\n')) []
          (curRev.reverse :: accRev)
      else splitParasAux fuel rest (c :: curRev) accRev

/-- Raw paragraph split of `texto`. -/
def splitParasRaw (texto : Str) : List Str := splitParasAux (strLen texto + 1) texto [] []

/-- `[p.strip() for p in ... if p.strip()]` (src/main.py:395). -/
def parasOf (texto : Str) : List Str :=
  ((splitParasRaw texto).map pyStrip).filter (fun p => !p.isEmpty)

/-- The paragraph-grouping loop of `_segmentar_automaticamente`
(src/main.py:404-458): greedy accumulation with the 1200/1600/2000
thresholds; `chars` carries `chars_bloco_atual` (the running sum of
paragraph lengths, joiners not counted, exactly as in the source). -/
def agruparParagrafosAux (trans : List Str) : List Str → List Str → Nat → List (List Str)
  | [], cur, _ => if cur.isEmpty then [] else [cur]
  | p :: rest, cur, chars =>
    let nova := chars + strLen p
    if ((1200 ≤ chars ∧ (1600 ≤ nova ∨ temTransicao trans p = true ∨ rest = [])) ∨
        2000 ≤ nova) ∧ cur ≠ [] then
      cur :: agruparParagrafosAux trans rest [p] (strLen p)
    else
      agruparParagrafosAux trans rest (cur ++ [p]) nova

/-- Materialise grouped paragraphs as blocks: sequential numbering from
`n`, content `"\n\n".join(grupo)`, offsets advancing by the content
length plus 2 for the joiner, titles from the title extractor
(src/main.py:429-479). -/
def blocosFromGroups : List (List Str) → Nat → Nat → List Bloco
  | [], _, _ => []
  | g :: gs, n, inicio =>
    let conteudo := joinSep "\n\n".data g
    let fim := inicio + strLen conteudo
    { numero_bloco := n, titulo_bloco := _extrair_titulo_automatico conteudo,
      conteudo := conteudo, inicio_char := inicio, fim_char := fim,
      tipo_demarcacao := "auto".data, meta := none, regras := none } ::
      blocosFromGroups gs (n + 1) (fim + 2)

/-! ### Sentence fallback, src/main.py:485-548 -/

/-- `re.split(r'([.!?]+\s+)', texto)` with the capturing group: the
alternating fragment/separator list (fuelled scan).  A separator is a
maximal run of sentence punctuation followed by a maximal nonempty run
of whitespace. -/
def isSentPunct (c : Char) : Bool := c == '.' || c == '!' || c == '?'

def splitSentAux : Nat → Str → Str → List Str → List Str
  | 0, s, curRev, accRev => accRev.reverse ++ [curRev.reverse ++ s]
  | fuel + 1, s, curRev, accRev =>
    match s with
    | [] => accRev.reverse ++ [curRev.reverse]
    | c :: rest =>
      if isSentPunct c then
        let punct := (c :: rest).takeWhile isSentPunct
        let afterP := (c :: rest).dropWhile isSentPunct
        let wsRun := afterP.takeWhile isPySpace
        if wsRun.isEmpty then splitSentAux fuel rest (c :: curRev) accRev
        else
          splitSentAux fuel (afterP.drop (strLen wsRun)) []
            ((punct ++ wsRun) :: curRev.reverse :: accRev)
      else splitSentAux fuel rest (c :: curRev) accRev

/-- `[''.join(l[i:i+2]) for i in range(0, len(l)-1, 2)]`
(src/main.py:502): pair each fragment with its separator; the final
unpaired fragment is dropped. -/
def pairSentencas : List Str → List Str
  | f :: sep :: rest => (f ++ sep) :: pairSentencas rest
  | _ => []

/-- The sentence list of `_segmentar_por_sentencas`. -/
def sentencasOf (texto : Str) : List Str :=
  pairSentencas (splitSentAux (strLen texto + 1) texto [] [])

/-- The sentence-grouping loop (src/main.py:509-531): single 1600
threshold, no floor and no transition logic. -/
def agruparSentencasAux : List Str → List Str → Nat → List (List Str)
  | [], cur, _ => if cur.isEmpty then [] else [cur]
  | s :: rest, cur, chars =>
    if 1600 ≤ chars + strLen s ∧ cur ≠ [] then
      cur :: agruparSentencasAux rest [s] (strLen s)
    else
      agruparSentencasAux rest (cur ++ [s]) (chars + strLen s)

/-- Materialise sentence groups: content `''.join(grupo)`, offsets
advancing by exactly the content length (src/main.py:512-545). -/
def blocosFromSentGroups : List (List Str) → Nat → Nat → List Bloco
  | [], _, _ => []
  | g :: gs, n, off =>
    let conteudo := g.flatten
    { numero_bloco := n, titulo_bloco := _extrair_titulo_automatico conteudo,
      conteudo := conteudo, inicio_char := off, fim_char := off + strLen conteudo,
      tipo_demarcacao := "auto".data, meta := none, regras := none } ::
      blocosFromSentGroups gs (n + 1) (off + strLen conteudo)

/-- `_segmentar_por_sentencas` (src/main.py:485). -/
def _segmentar_por_sentencas (texto : Str) (_palavrasTransicao : List Str) : List Bloco :=
  blocosFromSentGroups (agruparSentencasAux (sentencasOf texto) [] 0) 1 0

/-- `_segmentar_automaticamente` (src/main.py:369): paragraph split,
sentence fallback when there is exactly one paragraph, otherwise the
greedy paragraph grouping. -/
def _segmentar_automaticamente (texto : Str) (palavrasTransicao : List Str) : List Bloco :=
  let paragrafos := parasOf texto
  if paragrafos.length = 1 then _segmentar_por_sentencas texto palavrasTransicao
  else blocosFromGroups (agruparParagrafosAux palavrasTransicao paragrafos [] 0) 1 0

/-! ### Dispatcher, src/main.py:215-366 -/

/-- The manual-structure path (src/main.py:322-362): one block per
`findall` triple, re-locating each span with `search` from the running
offset, with the synthetic 1000-character window fallback. -/
def blocosManualPathAux (texto : Str) (total : Nat) :
    List (Str × Str × Str) → Nat → Nat → List Bloco
  | [], _, _ => []
  | (nome, m, r) :: rest, i, offsetAtual =>
    match searchManualFrom texto offsetAtual with
    | some (inicio, fim, _, _, _) =>
      { numero_bloco := i, titulo_bloco := pyStrip nome,
        conteudo := pySlice texto inicio fim, inicio_char := inicio, fim_char := fim,
        tipo_demarcacao := "manual".data, meta := some (pyStrip m),
        regras := some (pyStrip r) } ::
        blocosManualPathAux texto total rest (i + 1) fim
    | none =>
      let inicio := offsetAtual
      let fim := if i = total then strLen texto else offsetAtual + 1000
      { numero_bloco := i, titulo_bloco := pyStrip nome,
        conteudo := pySlice texto inicio fim, inicio_char := inicio, fim_char := fim,
        tipo_demarcacao := "manual".data, meta := some (pyStrip m),
        regras := some (pyStrip r) } ::
        blocosManualPathAux texto total rest (i + 1) offsetAtual

def blocosManualPath (texto : Str) (triples : List (Str × Str × Str)) : List Bloco :=
  blocosManualPathAux texto (strLen triples) triples 1 0

/-- `segmentar_narrativa_em_blocos` (src/main.py:215): short-text
shortcut below 1000 characters, then manual detection, then automatic
segmentation. -/
def segmentar_narrativa_em_blocos (texto : Str) (idioma : Str) : List Bloco :=
  let transicoes := getTransicoes (pyLower idioma)
  if strLen texto < 1000 then
    [{ numero_bloco := 1, titulo_bloco := _extrair_titulo_automatico texto,
       conteudo := texto, inicio_char := 0, fim_char := strLen texto,
       tipo_demarcacao := "auto".data, meta := none, regras := none }]
  else
    let blocosManuais := (finditerManual texto).map (fun m => (m.2.2.1, m.2.2.2.1, m.2.2.2.2))
    if blocosManuais.isEmpty then _segmentar_automaticamente texto transicoes
    else blocosManualPath texto blocosManuais

/-! ### TextChunker: `dividir_texto_em_chunks`, src/main.py:982-1028 -/

/-- `texto_limpo.split('. ')` (literal two-character separator,
leftmost, non-overlapping). -/
def splitDotSp : Str → List Str
  | [] => [[]]
  | [c] => [[c]]
  | c :: d :: rest =>
    if c = '.' ∧ d = ' ' then [] :: splitDotSp rest
    else
      match splitDotSp (d :: rest) with
      | [] => [[c]]
      | h :: t => (c :: h) :: t

/-- The sentence list of the chunker (src/main.py:1000-1003): each
`'. '`-fragment that strips nonempty, re-terminated with a period. -/
def mkFrases (textoLimpo : Str) : List Str :=
  (splitDotSp textoLimpo).filterMap fun sentenca =>
    let t := pyStrip sentenca
    if t.isEmpty then none else some (t ++ ['.'])

/-- The greedy packing loop (src/main.py:1005-1018). -/
def greedyChunksAux (maxChars : Nat) : List Str → Str → List Str
  | [], cur => if cur.isEmpty then [] else [pyStrip cur]
  | f :: rest, cur =>
    if strLen cur + strLen f + 1 ≤ maxChars then
      greedyChunksAux maxChars rest (if cur.isEmpty then f else cur ++ [' '] ++ f)
    else if cur.isEmpty then greedyChunksAux maxChars rest f
    else pyStrip cur :: greedyChunksAux maxChars rest f

/-- Fixed-width fallback slicing
(`[texto_limpo[i:i+max_chars] for i in range(0, len(texto_limpo), max_chars)]`),
fuelled; only invoked with positive `maxChars`. -/
def slicesAux (maxChars : Nat) : Nat → Str → List Str
  | _, [] => []
  | 0, s => [s]
  | fuel + 1, s => s.take maxChars :: slicesAux maxChars fuel (s.drop maxChars)

/-- `dividir_texto_em_chunks` (src/main.py:982).  `none` models the
`ValueError` that `range(0, len, 0)` raises when the fallback is reached
with `max_chars = 0`. -/
def dividir_texto_em_chunks (texto : Str) (maxChars : Nat := 4000) : Option (List Str) :=
  let textoLimpo := collapseWs texto
  let frases := mkFrases textoLimpo
  let chunks := greedyChunksAux maxChars frases []
  if chunks.isEmpty then
    if maxChars = 0 then none
    else some (slicesAux maxChars (strLen textoLimpo) textoLimpo)
  else some chunks

/-! ### SequentialScriptBuilder: the Stage-3 loop of
`run_generation_task`, src/main.py:1425-1503.

The Gemini call (`_chamar_api_com_tentativas`) is abstracted as a total
`gen : Str → Str` from prompt to generated text; the function returns
the final script together with the ordered trace of (prompt, output)
pairs, one per external call. -/

/-- Python f-string interpolation of an optional value (`str(None)` is
`"None"`; the manual path always stores strings). -/
def pyOptStr : Option Str → Str
  | some s => s
  | none => "None".data

/-- `contexto = roteiro_acumulado[-2000:] if roteiro_acumulado else
"(Início do roteiro)"` (src/main.py:1439). -/
def contextoOf (roteiroAcumulado : Str) : Str :=
  if roteiroAcumulado.isEmpty then "(Início do roteiro)".data
  else takeLast 2000 roteiroAcumulado

/-- The manual-block prompt f-string (src/main.py:1447-1463). -/
def promptBlocoManual (persona idioma premissa contexto : Str) (i total : Nat)
    (nome meta regras : Str) : Str :=
  persona ++ "\n\n**INSTRUÇÃO OBRIGATÓRIA:** O idioma de toda a geração deve ser **".data ++
  idioma ++ "**.\n\n**BRIEFING CRIATIVO (PREMISSA GERADA):**\n".data ++
  premissa ++ "\n\n**CONTEXTO (ÚLTIMO TRECHO ESCRITO):**\n".data ++
  contexto ++ "\n\n**TAREFA ATUAL (BLOCO ".data ++ natToStr i ++ "/".data ++
  natToStr total ++ ": ".data ++ nome ++
  "):**\nSua tarefa agora é escrever APENAS este bloco da narrativa, continuando a partir do contexto. Siga as regras e metas com precisão. Seja expansivo e detalhado para atingir a meta de caracteres.\n- METAS: ".data ++
  meta ++ "\n- REGRAS: ".data ++ regras ++
  "\n\nComece a escrever a continuação da narrativa agora.\n".data

/-- The auto-block prompt f-string (src/main.py:1468-1485). -/
def promptBlocoAuto (persona idioma premissa contexto : Str) (i total : Nat)
    (nome guia : Str) : Str :=
  persona ++ "\n\n**INSTRUÇÃO OBRIGATÓRIA:** O idioma de toda a geração deve ser **".data ++
  idioma ++ "**.\n\n**BRIEFING CRIATIVO (PREMISSA GERADA):**\n".data ++
  premissa ++ "\n\n**CONTEXTO (ÚLTIMO TRECHO ESCRITO):**\n".data ++
  contexto ++ "\n\n**TAREFA ATUAL (BLOCO ".data ++ natToStr i ++ "/".data ++
  natToStr total ++ ": ".data ++ nome ++
  "):**\nContinue a narrativa de forma natural e fluida. Este é o bloco ".data ++
  natToStr i ++ " de ".data ++ natToStr total ++
  " no roteiro.\n\nGUIA TEMÁTICO (referência do que deve ser abordado neste bloco):\n".data ++
  guia ++
  "\n\nEscreva de forma expansiva e detalhada (~1200-1600 caracteres), mantendo coesão com o contexto anterior.\n".data

/-- The per-block prompt: dispatch on `tipo_demarcacao`
(src/main.py:1442-1485); the context excerpt is derived from the script
accumulated so far. -/
def promptBloco (persona idioma premissa : Str) (total : Nat) (b : Bloco)
    (roteiroAcumulado : Str) : Str :=
  let contexto := contextoOf roteiroAcumulado
  if b.tipo_demarcacao = "manual".data then
    promptBlocoManual persona idioma premissa contexto b.numero_bloco total
      b.titulo_bloco (pyOptStr b.meta) (pyOptStr b.regras)
  else
    promptBlocoAuto persona idioma premissa contexto b.numero_bloco total
      b.titulo_bloco (b.conteudo.take 500)

/-- The sequential generation loop (src/main.py:1425-1500): one call per
block, appending each result plus a double newline to the accumulator. -/
def runGenerationBlocosAux (gen : Str → Str) (persona idioma premissa : Str)
    (total : Nat) : List Bloco → Str → Str × List (Str × Str)
  | [], acc => (acc, [])
  | b :: rest, acc =>
    ((runGenerationBlocosAux gen persona idioma premissa total rest
        (acc ++ gen (promptBloco persona idioma premissa total b acc) ++ "\n\n".data)).1,
     (promptBloco persona idioma premissa total b acc,
       gen (promptBloco persona idioma premissa total b acc)) ::
      (runGenerationBlocosAux gen persona idioma premissa total rest
        (acc ++ gen (promptBloco persona idioma premissa total b acc) ++ "\n\n".data)).2)

/-- The Stage-3 block loop with the final
`roteiro_final = roteiro_acumulado.strip()` (src/main.py:1503): returns
the final script and the ordered call trace. -/
def runGenerationBlocos (gen : Str → Str) (persona idioma premissa : Str)
    (blocos : List Bloco) : Str × List (Str × Str) :=
  let r := runGenerationBlocosAux gen persona idioma premissa (strLen blocos) blocos []
  (pyStrip r.1, r.2)

/-! ### CulturalAdapter: `adaptar_culturalmente`, src/main.py:590-756.

The Gemini call is abstracted as `gen : Str → Str`; the result carries
the ordered list of prompts sent (one per external call).  `none` models
the `ZeroDivisionError` raised by the ratio computation when the master
script is empty.  `int(x * 0.9)`-style Python floats on lengths are
modelled with exact natural division. -/

/-- The `cultural_config` dict (only the three keys read at
src/main.py:620-625). -/
structure CulturalConfig where
  adaptacao_prompt : Option Str
  sensibilidade : Option Str
  formato : Option Str

/-- The meta-instruction block (src/main.py:629-635): empty when
`base_prompt` is falsy. -/
def instrucoesMeta (basePrompt : Str) : Str :=
  if basePrompt.isEmpty then []
  else
    "\nIMPORTANTE - LEIA ESTAS META-INSTRUÇÕES (NÃO INCLUA NO OUTPUT):\n".data ++
    basePrompt ++ "\n\n".data

/-- The adaptation prompt f-string (src/main.py:639-671). -/
def promptAdaptacao (roteiroMaster idiomaMaster idiomaAlvo : Str)
    (cfg : CulturalConfig) (basePrompt : Str) : Str :=
  let adaptacaoPrompt := cfg.adaptacao_prompt.getD "Adapte mantendo reverência e clareza.".data
  let sensibilidade := cfg.sensibilidade.getD "Respeite diferentes crenças e foque em lições universais.".data
  let formato := cfg.formato.getD "Narração clara e envolvente.".data
  let n := strLen roteiroMaster
  "\nVocê é um especialista em localização cultural de conteúdo espiritual/religioso.\n\n".data ++
  instrucoesMeta basePrompt ++
  "TAREFA CRÍTICA: Adapte COMPLETAMENTE o roteiro abaixo do idioma ".data ++
  idiomaMaster ++ " para ".data ++ idiomaAlvo ++
  ".\n\n⚠️ ATENÇÃO: O roteiro original tem ".data ++ natToStr n ++
  " caracteres. \nSua adaptação DEVE ter entre ".data ++ natToStr (9 * n / 10) ++
  " e ".data ++ natToStr (11 * n / 10) ++
  " caracteres (±10%).\n\nDIRETRIZES ESPECÍFICAS PARA ".data ++ idiomaAlvo ++
  ":\n- ADAPTAÇÃO: ".data ++ adaptacaoPrompt ++
  "\n- SENSIBILIDADE: ".data ++ sensibilidade ++
  "\n- FORMATO: ".data ++ formato ++
  "\n\nREGRAS OBRIGATÓRIAS - LEIA COM ATENÇÃO:\n✅ Adapte TODO O CONTEÚDO - não resuma, não corte, não omita parágrafos\n✅ Mantenha ESTRUTURA NARRATIVA idêntica (mesma sequência de eventos)\n✅ Preserve TODOS OS BLOCOS/SEÇÕES (se há 6 partes, mantenha 6 partes)\n✅ Mantenha COMPRIMENTO SIMILAR (±10% = ".data ++
  natToStr (9 * n / 10) ++ "-".data ++ natToStr (11 * n / 10) ++
  " chars)\n✅ Adapte REFERÊNCIAS CULTURAIS mas preserve o conteúdo completo\n✅ Ajuste REGISTRO/TOM conforme cultura-alvo\n✅ Substitua METÁFORAS por equivalentes culturais\n❌ NÃO resuma ou encurte o texto\n❌ NÃO pule seções ou parágrafos\n❌ NÃO adicione ou remova blocos estruturais\n❌ NÃO traduza mecanicamente palavra por palavra\n❌ NÃO inclua as meta-instruções acima no roteiro final\n\nROTEIRO ORIGINAL COMPLETO (".data ++
  idiomaMaster ++ ") - ".data ++ natToStr n ++ " caracteres:\n".data ++
  roteiroMaster ++
  "\n\nAgora gere o roteiro COMPLETO adaptado para ".data ++ idiomaAlvo ++
  " (esperado: ~".data ++ natToStr n ++
  " chars).\nIMPORTANTE: Adapte TODO o conteúdo acima, do início ao fim, mantendo o comprimento similar:\n".data

/-- The emphatic retry prompt f-string (src/main.py:729-743). -/
def promptRetryAdaptacao (roteiroMaster idiomaAlvo : Str) : Str :=
  let n := strLen roteiroMaster
  "\nATENÇÃO: Você DEVE adaptar TODO o conteúdo abaixo para ".data ++ idiomaAlvo ++
  ".\nNÃO resuma, NÃO corte, NÃO omita parágrafos.\n\nO texto original tem ".data ++
  natToStr n ++
  " caracteres.\nSua adaptação DEVE ter pelo menos ".data ++ natToStr (9 * n / 10) ++
  " caracteres.\n\nAdapte COMPLETAMENTE cada parágrafo, cada seção, cada frase.\nPreserve a estrutura e o comprimento total.\n\nTEXTO ORIGINAL COMPLETO para adaptar:\n".data ++
  roteiroMaster ++
  "\n\nInicie a adaptação COMPLETA agora:\n".data

/-- `adaptar_culturalmente` (src/main.py:590): identity without any call
when the languages coincide; otherwise one generation call, and exactly
one emphatic retry when the stripped output is under 50% of the original
length (`len_adaptado < len_original * 0.5`, exact on naturals as
`2 * len_adaptado < len_original`), whose result is returned regardless
of its own ratio. -/
def adaptar_culturalmente (gen : Str → Str) (roteiroMaster idiomaMaster idiomaAlvo : Str)
    (cfg : CulturalConfig) (basePrompt : Str) : Option (Str × List Str) :=
  if idiomaMaster = idiomaAlvo then some (roteiroMaster, [])
  else
    let p1 := promptAdaptacao roteiroMaster idiomaMaster idiomaAlvo cfg basePrompt
    let roteiroAdaptado := pyStrip (gen p1)
    if strLen roteiroMaster = 0 then none
    else if 2 * strLen roteiroAdaptado < strLen roteiroMaster then
      let p2 := promptRetryAdaptacao roteiroMaster idiomaAlvo
      some (pyStrip (gen p2), [p1, p2])
    else some (roteiroAdaptado, [p1])

/-! ### VariationOrchestrator parser: `gerar_variacoes_roteiro`,
src/main.py:901-966.

`padrao_variacao = \[?={0,3}\s*VARIAÇÃO\s+(\d+)[^\]]*\]?={0,3}` with
`re.IGNORECASE` is compiled into a deterministic matcher: every
quantified piece is greedy with no feasible backtracking (the follow-up
pieces are all optional), except that more than three `=` fails the
position outright. -/

/-- Case folding for `re.IGNORECASE` over the letters these patterns
use (ASCII plus `Ç`, `Ã`, `É`). -/
def lowerU (c : Char) : Char :=
  if 'A' ≤ c ∧ c ≤ 'Z' then Char.ofNat (c.toNat + 32)
  else if c = 'Ç' then 'ç' else if c = 'Ã' then 'ã' else if c = 'É' then 'é' else c

/-- Case-insensitive literal prefix test. -/
def ciPrefixOf : Str → Str → Bool
  | [], _ => true
  | _ :: _, [] => false
  | p :: ps, c :: cs => (lowerU p == lowerU c) && ciPrefixOf ps cs

/-- Match `padrao_variacao` at the start of `l`: `some (length,
captured digits)` (the digit capture of `(\d+)`) or `none`. -/
def matchMarkerAt (l : Str) : Option (Nat × Str) :=
  let b1 : Nat := if l.head? = some '[' then 1 else 0
  let l1 := l.drop b1
  let eqs := l1.takeWhile (fun c => c == '=')
  if 3 < strLen eqs then none
  else
    let l2 := l1.drop (strLen eqs)
    let ws1 := l2.takeWhile isPySpace
    let l3 := l2.drop (strLen ws1)
    if ciPrefixOf "VARIAÇÃO".data l3 then
      let l4 := l3.drop 8
      let ws2 := l4.takeWhile isPySpace
      if ws2.isEmpty then none
      else
        let l5 := l4.drop (strLen ws2)
        let ds := l5.takeWhile Char.isDigit
        if ds.isEmpty then none
        else
          let l6 := l5.drop (strLen ds)
          let corpo := l6.takeWhile (fun c => c != ']')
          let l7 := l6.drop (strLen corpo)
          let b2 : Nat := if l7.head? = some ']' then 1 else 0
          let l8 := l7.drop b2
          let eqs2 := (l8.takeWhile (fun c => c == '=')).take 3
          some (b1 + strLen eqs + strLen ws1 + 8 + strLen ws2 + strLen ds +
                  strLen corpo + b2 + strLen eqs2, ds)
    else none

/-- `re.finditer(padrao_variacao, texto, re.IGNORECASE)`: absolute
(start, end, captured digits) of the non-overlapping matches. -/
def finditerMarkersAux : Nat → Str → Nat → List (Nat × Nat × Str)
  | 0, _, _ => []
  | fuel + 1, l, pos =>
    match matchMarkerAt l with
    | some (mlen, ds) =>
      (pos, pos + mlen, ds) :: finditerMarkersAux fuel (l.drop mlen) (pos + mlen)
    | none =>
      match l with
      | [] => []
      | _ :: rest => finditerMarkersAux fuel rest (pos + 1)

def finditerMarkers (texto : Str) : List (Nat × Nat × Str) :=
  finditerMarkersAux (strLen texto + 1) texto 0

/-- Match `\[?={0,3}\s*FIM\s*\]?={0,3}` (IGNORECASE) at the start of
`l` (src/main.py:950). -/
def matchFimAt (l : Str) : Option Nat :=
  let b1 : Nat := if l.head? = some '[' then 1 else 0
  let l1 := l.drop b1
  let eqs := l1.takeWhile (fun c => c == '=')
  if 3 < strLen eqs then none
  else
    let l2 := l1.drop (strLen eqs)
    let ws1 := l2.takeWhile isPySpace
    let l3 := l2.drop (strLen ws1)
    if ciPrefixOf "FIM".data l3 then
      let l4 := l3.drop 3
      let ws2 := l4.takeWhile isPySpace
      let l5 := l4.drop (strLen ws2)
      let b2 : Nat := if l5.head? = some ']' then 1 else 0
      let l6 := l5.drop b2
      let eqs2 := (l6.takeWhile (fun c => c == '=')).take 3
      some (b1 + strLen eqs + strLen ws1 + 3 + strLen ws2 + b2 + strLen eqs2)
    else none

/-- Match `\[?={0,3}\s*VARIAÇÃO\s+\d+\s+COMPLETA\s*\]?={0,3}`
(IGNORECASE) at the start of `l` (src/main.py:951). -/
def matchVarCompletaAt (l : Str) : Option Nat :=
  let b1 : Nat := if l.head? = some '[' then 1 else 0
  let l1 := l.drop b1
  let eqs := l1.takeWhile (fun c => c == '=')
  if 3 < strLen eqs then none
  else
    let l2 := l1.drop (strLen eqs)
    let ws1 := l2.takeWhile isPySpace
    let l3 := l2.drop (strLen ws1)
    if ciPrefixOf "VARIAÇÃO".data l3 then
      let l4 := l3.drop 8
      let ws2 := l4.takeWhile isPySpace
      if ws2.isEmpty then none
      else
        let l5 := l4.drop (strLen ws2)
        let ds := l5.takeWhile Char.isDigit
        if ds.isEmpty then none
        else
          let l6 := l5.drop (strLen ds)
          let ws3 := l6.takeWhile isPySpace
          if ws3.isEmpty then none
          else
            let l7 := l6.drop (strLen ws3)
            if ciPrefixOf "COMPLETA".data l7 then
              let l8 := l7.drop 8
              let ws4 := l8.takeWhile isPySpace
              let l9 := l8.drop (strLen ws4)
              let b2 : Nat := if l9.head? = some ']' then 1 else 0
              let l10 := l9.drop b2
              let eqs2 := (l10.takeWhile (fun c => c == '=')).take 3
              some (b1 + strLen eqs + strLen ws1 + 8 + strLen ws2 + strLen ds +
                      strLen ws3 + 8 + strLen ws4 + b2 + strLen eqs2)
            else none
    else none

/-- `re.sub(pat, '', s)` for a matcher that never matches the empty
string: delete every non-overlapping match, scanning left to right. -/
def reSubAux (matchAt : Str → Option Nat) : Nat → Str → Str
  | 0, s => s
  | _ + 1, [] => []
  | fuel + 1, c :: rest =>
    match matchAt (c :: rest) with
    | some mlen =>
      if mlen = 0 then c :: reSubAux matchAt fuel rest
      else reSubAux matchAt fuel ((c :: rest).drop mlen)
    | none => c :: reSubAux matchAt fuel rest

def reSubPat (matchAt : Str → Option Nat) (s : Str) : Str :=
  reSubAux matchAt (strLen s + 1) s

/-- The per-span cleanup of the marker branch (src/main.py:947-951):
strip, delete `FIM` markers, strip, delete `VARIAÇÃO N COMPLETA`
markers, strip. -/
def cleanSpanVar (s : Str) : Str :=
  let r0 := pyStrip s
  let r1 := pyStrip (reSubPat matchFimAt r0)
  pyStrip (reSubPat matchVarCompletaAt r1)

/-- The marker branch of the parser (src/main.py:934-956): the `i`-th
match's span runs from its end to the next match's start (or the end of
text); nonempty cleaned spans are stored under `variacao_{i+1}` keyed by
the match's position index, not its captured number. -/
def parseWithMarkersAux (texto : Str) : Nat → List (Nat × Nat × Str) → List (Str × Str)
  | _, [] => []
  | i, m :: rest =>
    let fim :=
      match rest with
      | m2 :: _ => m2.1
      | [] => strLen texto
    let roteiro := cleanSpanVar (pySlice texto m.2.1 fim)
    if roteiro.isEmpty then parseWithMarkersAux texto (i + 1) rest
    else ("variacao_".data ++ natToStr (i + 1), roteiro) :: parseWithMarkersAux texto (i + 1) rest

/-- The cleaned spans of a match list, in order (used to state what the
marker branch returns). -/
def spansOfMarkers (texto : Str) : List (Nat × Nat × Str) → List Str
  | [] => []
  | m :: rest =>
    let fim :=
      match rest with
      | m2 :: _ => m2.1
      | [] => strLen texto
    cleanSpanVar (pySlice texto m.2.1 fim) :: spansOfMarkers texto rest

/-- The end of the current span: the next match's start, or the end of
the text (used to state the unfoldings of the two functions above). -/
def nextStart (texto : Str) : List (Nat × Nat × Str) → Nat
  | m2 :: _ => m2.1
  | [] => strLen texto

/-- The zero-marker fallback (src/main.py:920-932): `count` contiguous
slices of `len // count` characters (the last running to the end), each
stripped, marker-cleansed, stripped, and dropped when empty. -/
def fallbackVariacoes (texto : Str) (num : Nat) : List (Str × Str) :=
  let tamanhoMedio := strLen texto / num
  (List.range num).filterMap fun i =>
    let inicio := i * tamanhoMedio
    let fim := if i < num - 1 then (i + 1) * tamanhoMedio else strLen texto
    let roteiro :=
      pyStrip (reSubPat (fun l => (matchMarkerAt l).map Prod.fst)
        (pyStrip (pySlice texto inicio fim)))
    if roteiro.isEmpty then none
    else some ("variacao_".data ++ natToStr (i + 1), roteiro)

/-- The parsing stage of `gerar_variacoes_roteiro` applied to the
combined model response (src/main.py:901-966).  `none` models the two
exceptions: the `ZeroDivisionError` of `len // 0`, and the final
`if not roteiros: raise`. -/
def gerar_variacoes_roteiro_parse (textoCompleto : Str) (numVariacoes : Nat) :
    Option (List (Str × Str)) :=
  let ms := finditerMarkers textoCompleto
  if ms.isEmpty then
    if numVariacoes = 0 then none
    else
      let roteiros := fallbackVariacoes textoCompleto numVariacoes
      if roteiros.isEmpty then none else some roteiros
  else
    let roteiros := parseWithMarkersAux textoCompleto 0 ms
    if roteiros.isEmpty then none else some roteiros

/-! ### Auxiliary definitions used by the statements below -/

/-- Placeholder block for indexed access in statements. -/
def defaultBloco : Bloco :=
  { numero_bloco := 0, titulo_bloco := [], conteudo := [], inicio_char := 0,
    fim_char := 0, tipo_demarcacao := [], meta := none, regras := none }

/-- The accumulation shape of the builder loop: each output followed by
a double newline, concatenated. -/
def appendNl2All (outs : List Str) : Str :=
  (outs.map (fun o => o ++ "\n\n".data)).flatten

/-- Both ends are non-whitespace (vacuously true for `[]`). -/
def noWsEnds (s : Str) : Bool :=
  (match s.head? with
   | some c => !isPySpace c
   | none => true) &&
  (match s.getLast? with
   | some c => !isPySpace c
   | none => true)

/-- Nonempty with non-whitespace ends: such strings are fixed points of
`strip`. -/
def goodStr (s : Str) : Bool := !s.isEmpty && noWsEnds s

/-- Concrete generator and blocks used by the witnesses below. -/
def genOK : Str → Str := fun _ => "OK".data

def genShortOut : Str → Str := fun _ => " ab ".data

def blocoW1 : Bloco :=
  { numero_bloco := 1, titulo_bloco := "T1".data, conteudo := "c1".data,
    inicio_char := 0, fim_char := 2, tipo_demarcacao := "auto".data,
    meta := none, regras := none }

def blocoW2 : Bloco :=
  { numero_bloco := 2, titulo_bloco := "T2".data, conteudo := "c2".data,
    inicio_char := 4, fim_char := 6, tipo_demarcacao := "manual".data,
    meta := some "M".data, regras := some "R".data }

/-! ## Support lemmas -/

theorem strLenAux_eq (l : List α) : ∀ acc, strLenAux l acc = l.length + acc := by
  induction l with
  | nil => intro acc; simp [strLenAux]
  | cons x rest ih =>
    intro acc
    match acc with
    | 0 => simp [strLenAux, ih]
    | n + 1 => simp [strLenAux, ih]; omega

theorem strLen_eq_length (l : List α) : strLen l = l.length := by
  simp [strLen, strLenAux_eq]

theorem dropWhile_head_not (p : Char → Bool) :
    ∀ (l : Str) c rest, l.dropWhile p = c :: rest → p c = false := by
  intro l
  induction l with
  | nil => intro c rest h; simp [List.dropWhile] at h
  | cons a as ih =>
    intro c rest h
    by_cases hp : p a
    · rw [List.dropWhile_cons_of_pos hp] at h; exact ih c rest h
    · rw [List.dropWhile_cons_of_neg hp] at h
      cases h; simpa using hp

theorem dropWhile_eq_self_of_head (p : Char → Bool) (l : Str) (c : Char)
    (hc : l.head? = some c) (hp : p c = false) : l.dropWhile p = l := by
  cases l with
  | nil => rfl
  | cons a as =>
    simp at hc
    subst hc
    exact List.dropWhile_cons_of_neg (by simp [hp])

theorem takeWhile_mem (p : Char → Bool) :
    ∀ (l : Str) c, c ∈ l.takeWhile p → p c = true := by
  intro l
  induction l with
  | nil => intro c h; simp [List.takeWhile] at h
  | cons a as ih =>
    intro c h
    by_cases hp : p a
    · rw [List.takeWhile_cons_of_pos hp] at h
      rcases List.mem_cons.1 h with h1 | h2
      · subst h1; exact hp
      · exact ih c h2
    · rw [List.takeWhile_cons_of_neg hp] at h; simp at h

theorem dropWhile_eq_nil_all (p : Char → Bool) :
    ∀ (l : Str), l.dropWhile p = [] → ∀ c ∈ l, p c = true := by
  intro l
  induction l with
  | nil => intro _ c h; simp at h
  | cons a as ih =>
    intro h c hc
    by_cases hp : p a
    · rw [List.dropWhile_cons_of_pos hp] at h
      rcases List.mem_cons.1 hc with h1 | h2
      · subst h1; exact hp
      · exact ih h c h2
    · rw [List.dropWhile_cons_of_neg hp] at h; simp at h

theorem goodStr_ne_nil {s : Str} (h : goodStr s = true) : s ≠ [] := by
  intro he; subst he; simp [goodStr] at h

theorem getLast?_cons_isSome (a : Char) (as : Str) : ((a :: as).getLast?).isSome := by
  induction as generalizing a with
  | nil => simp
  | cons b bs ih => rw [List.getLast?_cons_cons]; exact ih b

theorem goodStr_head {s : Str} {c : Char} (h : goodStr s = true)
    (hc : s.head? = some c) : isPySpace c = false := by
  cases s with
  | nil => simp at hc
  | cons a as =>
    simp at hc
    rw [← hc]
    have hsome := getLast?_cons_isSome a as
    rcases hl : (a :: as).getLast? with _ | d
    · rw [hl] at hsome; simp at hsome
    · simp [goodStr, noWsEnds, hl] at h
      simpa using h.1

theorem goodStr_last {s : Str} {c : Char} (h : goodStr s = true)
    (hc : s.getLast? = some c) : isPySpace c = false := by
  cases s with
  | nil => simp at hc
  | cons a as =>
    simp [goodStr, noWsEnds, hc] at h
    simpa using h.2

theorem goodStr_mk {s : Str} (h1 : s ≠ [])
    (h2 : ∀ c, s.head? = some c → isPySpace c = false)
    (h3 : ∀ c, s.getLast? = some c → isPySpace c = false) : goodStr s = true := by
  cases s with
  | nil => exact absurd rfl h1
  | cons a as =>
    have ha := h2 a (by simp)
    have hsome := getLast?_cons_isSome a as
    rcases hl : (a :: as).getLast? with _ | d
    · rw [hl] at hsome; simp at hsome
    · have hd := h3 d hl
      simp [goodStr, noWsEnds, hl, ha, hd]

theorem dropWhile_append_all (p : Char → Bool) :
    ∀ (a b : Str), (∀ c ∈ a, p c = true) → (a ++ b).dropWhile p = b.dropWhile p := by
  intro a
  induction a with
  | nil => intro b _; simp
  | cons x xs ih =>
    intro b h
    have hx : p x = true := h x (by simp)
    simp only [List.cons_append, List.dropWhile_cons_of_pos hx]
    exact ih b (fun c hc => h c (by simp [hc]))

theorem pyStrip_eq_self {s : Str} (h : goodStr s = true) : pyStrip s = s := by
  have h1 : s.dropWhile isPySpace = s := by
    cases s with
    | nil => rfl
    | cons a as =>
      exact dropWhile_eq_self_of_head isPySpace _ a (by simp) (goodStr_head h (by simp))
  have h2 : s.reverse.dropWhile isPySpace = s.reverse := by
    cases hr : s.reverse with
    | nil => rfl
    | cons a as =>
      have : s.getLast? = some a := by
        rw [← List.head?_reverse]; simp [hr]
      exact dropWhile_eq_self_of_head isPySpace _ a (by simp [hr]) (goodStr_last h this)
  simp [pyStrip, h1, h2]

theorem pyStrip_append_ws {x w : Str} (hx : goodStr x = true)
    (hw : ∀ c ∈ w, isPySpace c = true) : pyStrip (x ++ w) = x := by
  have hxe : x ≠ [] := goodStr_ne_nil hx
  have h1 : (x ++ w).dropWhile isPySpace = x ++ w := by
    cases x with
    | nil => exact absurd rfl hxe
    | cons a as =>
      exact dropWhile_eq_self_of_head isPySpace _ a (by simp) (goodStr_head hx (by simp))
  have h2 : (w.reverse ++ x.reverse).dropWhile isPySpace = x.reverse := by
    rw [dropWhile_append_all isPySpace _ _ (by intro c hc; exact hw c (by simpa using hc))]
    cases hr : x.reverse with
    | nil => simp at hr; exact absurd hr hxe
    | cons a as =>
      have : x.getLast? = some a := by rw [← List.head?_reverse]; simp [hr]
      rw [← hr]
      exact dropWhile_eq_self_of_head isPySpace _ a (by simp [hr]) (goodStr_last hx this)
  rw [pyStrip, h1, List.reverse_append, h2, List.reverse_reverse]

theorem getLast?_dropWhile (p : Char → Bool) :
    ∀ (l : Str), l.dropWhile p ≠ [] → (l.dropWhile p).getLast? = l.getLast? := by
  intro l
  induction l with
  | nil => intro h; simp at h
  | cons a as ih =>
    intro h
    by_cases hp : p a
    · rw [List.dropWhile_cons_of_pos hp] at h ⊢
      rw [ih h]
      have has : as ≠ [] := by
        intro he; subst he; simp [List.dropWhile] at h
      cases as with
      | nil => exact absurd rfl has
      | cons b bs => simp
    · rw [List.dropWhile_cons_of_neg hp]

theorem pyStrip_good {s : Str} (h : pyStrip s ≠ []) : goodStr (pyStrip s) = true := by
  have hps : pyStrip s = ((s.dropWhile isPySpace).reverse.dropWhile isPySpace).reverse := rfl
  have hXne : (s.dropWhile isPySpace).reverse.dropWhile isPySpace ≠ [] := by
    intro he; rw [hps, he] at h; simp at h
  apply goodStr_mk h
  · intro c hc
    rw [hps, List.head?_reverse] at hc
    rw [getLast?_dropWhile isPySpace _ hXne] at hc
    rw [List.getLast?_reverse] at hc
    cases hY : s.dropWhile isPySpace with
    | nil => rw [hY] at hc; simp at hc
    | cons a as =>
      rw [hY] at hc
      simp at hc
      subst hc
      exact dropWhile_head_not isPySpace s a as hY
  · intro c hc
    rw [hps, List.getLast?_reverse] at hc
    cases hX : (s.dropWhile isPySpace).reverse.dropWhile isPySpace with
    | nil => exact absurd hX hXne
    | cons a as =>
      rw [hX] at hc
      simp at hc
      subst hc
      exact dropWhile_head_not isPySpace _ a as hX

theorem joinSep_cons_of_ne (sep x : Str) {l : List Str} (h : l ≠ []) :
    joinSep sep (x :: l) = x ++ sep ++ joinSep sep l := by
  cases l with
  | nil => exact absurd rfl h
  | cons y rest => rfl

theorem joinSep_ne_nil (sep : Str) {x : Str} (xs : List Str) (h : x ≠ []) :
    joinSep sep (x :: xs) ≠ [] := by
  cases xs with
  | nil => simpa [joinSep] using h
  | cons y rest =>
    rw [joinSep_cons_of_ne sep x (by simp)]
    simp [h]

theorem head?_joinSep (sep : Str) {x : Str} (xs : List Str) (h : x ≠ []) :
    (joinSep sep (x :: xs)).head? = x.head? := by
  cases xs with
  | nil => rfl
  | cons y rest =>
    rw [joinSep_cons_of_ne sep x (by simp), List.append_assoc]
    cases x with
    | nil => exact absurd rfl h
    | cons a as => simp

theorem getLast?_joinSep (sep : Str) :
    ∀ (ws : List Str), (∀ w ∈ ws, w ≠ []) → ws ≠ [] →
      ∃ w, w ∈ ws ∧ (joinSep sep ws).getLast? = w.getLast? := by
  intro ws
  induction ws with
  | nil => intro _ h; exact absurd rfl h
  | cons x rest ih =>
    intro hall _
    cases rest with
    | nil => exact ⟨x, by simp, rfl⟩
    | cons y t =>
      obtain ⟨w, hw, he⟩ := ih (fun w hw => hall w (by simp [hw])) (by simp)
      refine ⟨w, by simp [hw], ?_⟩
      rw [joinSep_cons_of_ne sep x (by simp), List.append_assoc]
      rw [List.getLast?_append_of_ne_nil]
      · rw [List.getLast?_append_of_ne_nil]
        · exact he
        · exact joinSep_ne_nil sep t (hall y (by simp))
      · intro hnil
        simp at hnil
        exact joinSep_ne_nil sep t (hall y (by simp)) hnil.2

theorem pyStrip_ne_nil_of_mem {s : Str} {d : Char} (hd : d ∈ s)
    (hw : isPySpace d = false) : pyStrip s ≠ [] := by
  intro he
  have h1 : (s.dropWhile isPySpace).reverse.dropWhile isPySpace = [] := by
    have := congrArg List.reverse he
    simpa [pyStrip] using this
  by_cases h2 : s.dropWhile isPySpace = []
  · have := dropWhile_eq_nil_all isPySpace s h2 d hd
    rw [hw] at this; exact Bool.false_ne_true this
  · have hall := dropWhile_eq_nil_all isPySpace _ h1
    cases hY : s.dropWhile isPySpace with
    | nil => exact h2 hY
    | cons a as =>
      have ha := dropWhile_head_not isPySpace s a as hY
      have : isPySpace a = true := by
        apply hall
        rw [hY]
        simp
      rw [ha] at this; exact Bool.false_ne_true this

theorem pySplitWsAux_words (fuel : Nat) :
    ∀ (s : Str) w, w ∈ pySplitWsAux fuel s →
      w ≠ [] ∧ ∀ c ∈ w, isPySpace c = false := by
  induction fuel with
  | zero => intro s w h; simp [pySplitWsAux] at h
  | succ n ih =>
    intro s w h
    rw [pySplitWsAux] at h
    cases hY : s.dropWhile isPySpace with
    | nil => rw [hY] at h; simp at h
    | cons a as =>
      rw [hY] at h
      simp only [List.mem_cons] at h
      rcases h with h1 | h2
      · subst h1
        have ha : isPySpace a = false := dropWhile_head_not isPySpace s a as hY
        constructor
        · rw [List.takeWhile_cons_of_pos (by simp [ha])]
          simp
        · intro c hc
          have := takeWhile_mem _ _ c hc
          simpa using this
      · exact ih _ w h2

theorem pySplitWs_words {s : Str} {w : Str} (h : w ∈ pySplitWs s) :
    w ≠ [] ∧ ∀ c ∈ w, isPySpace c = false :=
  pySplitWsAux_words _ s w h

/-! Chunker support lemmas -/

theorem mkFrases_good {t : Str} : ∀ f ∈ mkFrases t, goodStr f = true := by
  intro f hf
  rw [mkFrases] at hf
  obtain ⟨sent, _, hsome⟩ := List.mem_filterMap.1 hf
  by_cases he : (pyStrip sent).isEmpty
  · simp [he] at hsome
  · simp only [he, if_neg, Bool.not_eq_true, if_false, Option.some.injEq] at hsome
    have hne : pyStrip sent ≠ [] := by
      intro h0; rw [h0] at he; simp at he
    have hg := pyStrip_good hne
    rw [← hsome]
    apply goodStr_mk
    · simp [hne]
    · intro c hc
      rw [List.head?_append_of_ne_nil _ hne] at hc
      exact goodStr_head hg hc
    · intro c hc
      rw [List.getLast?_append_of_ne_nil _ (by simp)] at hc
      simp at hc
      rw [← hc]
      rfl

theorem mkFrases_last_dot {t : Str} : ∀ f ∈ mkFrases t, f.getLast? = some '.' := by
  intro f hf
  rw [mkFrases] at hf
  obtain ⟨sent, _, hsome⟩ := List.mem_filterMap.1 hf
  by_cases he : (pyStrip sent).isEmpty
  · simp [he] at hsome
  · simp only [he, if_neg, Bool.not_eq_true, if_false, Option.some.injEq] at hsome
    rw [← hsome, List.getLast?_append_of_ne_nil _ (by simp)]
    rfl

theorem greedy_start (maxChars : Nat) (f : Str) (rest : List Str) :
    greedyChunksAux maxChars (f :: rest) [] = greedyChunksAux maxChars rest f := by
  rw [greedyChunksAux]
  by_cases h : strLen ([] : Str) + strLen f + 1 ≤ maxChars
  · simp [h]
  · simp [h]

theorem greedy_ne_nil (maxChars : Nat) :
    ∀ (rest : List Str) (cur : Str), cur ≠ [] →
      greedyChunksAux maxChars rest cur ≠ [] := by
  intro rest
  induction rest with
  | nil =>
    intro cur h
    rw [greedyChunksAux]
    simp [h]
  | cons f rs ih =>
    intro cur h
    cases cur with
    | nil => exact absurd rfl h
    | cons a as =>
      rw [greedyChunksAux]
      by_cases h1 : strLen (a :: as) + strLen f + 1 ≤ maxChars
      · rw [if_pos h1]
        exact ih _ (by simp)
      · rw [if_neg h1]
        simp

theorem joinSep_glue (sep x y : Str) (rest : List Str) :
    joinSep sep ((x ++ sep ++ y) :: rest) = joinSep sep (x :: y :: rest) := by
  cases rest with
  | nil => rfl
  | cons r rs =>
    rw [joinSep_cons_of_ne sep _ (by simp), joinSep_cons_of_ne sep x (by simp),
        joinSep_cons_of_ne sep y (by simp)]
    simp [List.append_assoc]

theorem goodStr_glue {cur f : Str} (hc : goodStr cur = true) (hf : goodStr f = true) :
    goodStr (cur ++ [' '] ++ f) = true := by
  apply goodStr_mk
  · simp [goodStr_ne_nil hc]
  · intro c h
    rw [List.append_assoc, List.head?_append_of_ne_nil _ (goodStr_ne_nil hc)] at h
    exact goodStr_head hc h
  · intro c h
    rw [List.getLast?_append_of_ne_nil _ (goodStr_ne_nil hf)] at h
    exact goodStr_last hf h

theorem greedy_chunks_spec (maxChars : Nat) (F : List Str) :
    ∀ (frases : List Str) (cur : Str),
      (∀ f ∈ frases, goodStr f = true ∧ f ∈ F) →
      (cur = [] ∨ (goodStr cur = true ∧ (strLen cur ≤ maxChars ∨ cur ∈ F))) →
      ∀ c ∈ greedyChunksAux maxChars frases cur,
        c ≠ [] ∧ (strLen c ≤ maxChars ∨ c ∈ F) := by
  intro frases
  induction frases with
  | nil =>
    intro cur _ hcur c hc
    rw [greedyChunksAux] at hc
    rcases hcur with rfl | ⟨hg, hlen⟩
    · simp at hc
    · rw [if_neg (by simp [goodStr_ne_nil hg])] at hc
      simp at hc
      rw [hc, pyStrip_eq_self hg]
      exact ⟨goodStr_ne_nil hg, hlen⟩
  | cons f rest ih =>
    intro cur hall hcur c hc
    have hf := hall f (by simp)
    have hrest : ∀ g ∈ rest, goodStr g = true ∧ g ∈ F :=
      fun g hg => hall g (by simp [hg])
    rcases hcur with rfl | ⟨hg, hlen⟩
    · rw [greedy_start] at hc
      exact ih f hrest (Or.inr ⟨hf.1, Or.inr hf.2⟩) c hc
    · rw [greedyChunksAux] at hc
      by_cases h1 : strLen cur + strLen f + 1 ≤ maxChars
      · rw [if_pos h1, if_neg (by simp [goodStr_ne_nil hg])] at hc
        apply ih _ hrest _ c hc
        right
        refine ⟨goodStr_glue hg hf.1, Or.inl ?_⟩
        simp only [strLen_eq_length] at h1 ⊢
        simp only [List.length_append, List.length_cons, List.length_nil]
        omega
      · rw [if_neg h1, if_neg (by simp [goodStr_ne_nil hg])] at hc
        rcases List.mem_cons.1 hc with h2 | h2
        · rw [h2, pyStrip_eq_self hg]
          exact ⟨goodStr_ne_nil hg, hlen⟩
        · exact ih f hrest (Or.inr ⟨hf.1, Or.inr hf.2⟩) c h2

theorem greedy_join (maxChars : Nat) :
    ∀ (frases : List Str) (cur : Str),
      (∀ f ∈ frases, goodStr f = true) → goodStr cur = true →
      joinSep [' '] (greedyChunksAux maxChars frases cur) = joinSep [' '] (cur :: frases) := by
  intro frases
  induction frases with
  | nil =>
    intro cur _ hg
    rw [greedyChunksAux, if_neg (by simp [goodStr_ne_nil hg]), pyStrip_eq_self hg]
  | cons f rest ih =>
    intro cur hall hg
    have hf := hall f (by simp)
    have hrest : ∀ g ∈ rest, goodStr g = true := fun g h => hall g (by simp [h])
    rw [greedyChunksAux]
    by_cases h1 : strLen cur + strLen f + 1 ≤ maxChars
    · rw [if_pos h1, if_neg (by simp [goodStr_ne_nil hg])]
      rw [ih _ hrest (goodStr_glue hg hf)]
      exact joinSep_glue [' '] cur f rest
    · rw [if_neg h1, if_neg (by simp [goodStr_ne_nil hg])]
      have hGne : greedyChunksAux maxChars rest f ≠ [] :=
        greedy_ne_nil maxChars rest f (goodStr_ne_nil hf)
      rw [pyStrip_eq_self hg, joinSep_cons_of_ne _ _ hGne, ih f hrest hf,
          joinSep_cons_of_ne _ _ (by simp : f :: rest ≠ [])]

theorem pyStrip_eq_nil_of_all {s : Str} (h : ∀ c ∈ s, isPySpace c = true) :
    pyStrip s = [] := by
  have h1 : s.dropWhile isPySpace = [] := by
    induction s with
    | nil => rfl
    | cons a as ih =>
      rw [List.dropWhile_cons_of_pos (h a (by simp))]
      exact ih (fun c hc => h c (by simp [hc]))
  simp [pyStrip, h1]

theorem pyStrip_ne_nil_mem {s : Str} (h : pyStrip s ≠ []) :
    ∃ c ∈ s, isPySpace c = false := by
  by_contra hno
  push_neg at hno
  exact h (pyStrip_eq_nil_of_all (fun c hc => by
    have := hno c hc
    simpa using this))

theorem splitDotSp_ne_nil : ∀ (s : Str), splitDotSp s ≠ [] := by
  intro s
  induction s using splitDotSp.induct with
  | case1 => simp [splitDotSp]
  | case2 c => simp [splitDotSp]
  | case3 c d rest hsep ih =>
    rw [splitDotSp, if_pos hsep]
    simp
  | case4 c d rest hsep hnil ih =>
    rw [splitDotSp, if_neg hsep, hnil]
    simp
  | case5 c d rest hsep h t hcons ih =>
    rw [splitDotSp, if_neg hsep, hcons]
    simp

theorem splitDotSp_last : ∀ (s : Str) (c : Char), s.getLast? = some c →
    isPySpace c = false → ∃ x ∈ splitDotSp s, pyStrip x ≠ [] := by
  intro s
  induction s using splitDotSp.induct with
  | case1 =>
    intro c hc _; simp at hc
  | case2 a =>
    intro c hc hns
    simp at hc
    refine ⟨[a], by simp [splitDotSp], ?_⟩
    apply pyStrip_ne_nil_of_mem (d := a) (by simp)
    rw [hc]; exact hns
  | case3 a d rest hsep ih =>
    intro c hc hns
    obtain ⟨rfl, rfl⟩ := hsep
    cases rest with
    | nil =>
      simp at hc
      rw [← hc] at hns
      simp [isPySpace] at hns
    | cons r rs =>
      rw [List.getLast?_cons_cons, List.getLast?_cons_cons] at hc
      obtain ⟨x, hx, hne⟩ := ih c hc hns
      exact ⟨x, by rw [splitDotSp, if_pos ⟨rfl, rfl⟩]; simp [hx], hne⟩
  | case4 a d rest hsep hnil ih =>
    intro c hc hns
    exact absurd hnil (splitDotSp_ne_nil _)
  | case5 a d rest hsep h t hcons ih =>
    intro c hc hns
    rw [List.getLast?_cons_cons] at hc
    obtain ⟨x, hx, hne⟩ := ih c hc hns
    rw [hcons] at hx
    rcases List.mem_cons.1 hx with h1 | h1
    · subst h1
      obtain ⟨e, he, hens⟩ := pyStrip_ne_nil_mem hne
      refine ⟨a :: x, ?_, pyStrip_ne_nil_of_mem (by simp [he]) hens⟩
      rw [splitDotSp, if_neg hsep, hcons]
      simp
    · refine ⟨x, ?_, hne⟩
      rw [splitDotSp, if_neg hsep, hcons]
      simp [h1]

theorem mkFrases_ne_nil {s : Str} {c : Char} (hc : s.getLast? = some c)
    (hns : isPySpace c = false) : mkFrases s ≠ [] := by
  obtain ⟨x, hx, hne⟩ := splitDotSp_last s c hc hns
  intro he
  have : (pyStrip x ++ ['.']) ∈ mkFrases s := by
    rw [mkFrases]
    apply List.mem_filterMap.2
    refine ⟨x, hx, ?_⟩
    simp only [List.isEmpty_iff]
    rw [if_neg hne]
  rw [he] at this
  simp at this

theorem getLast?_mem_str : ∀ {s : Str} {c : Char}, s.getLast? = some c → c ∈ s := by
  intro s
  induction s with
  | nil => intro c h; simp at h
  | cons a as ih =>
    intro c h
    cases as with
    | nil => simp at h; simp [h]
    | cons b bs =>
      rw [List.getLast?_cons_cons] at h
      simp [ih h]

theorem collapseWs_eq_nil_iff (texto : Str) :
    collapseWs texto = [] ↔ pySplitWs texto = [] := by
  constructor
  · intro h
    cases hw : pySplitWs texto with
    | nil => rfl
    | cons w ws =>
      have hwne := (pySplitWs_words (s := texto) (w := w) (by simp [hw])).1
      rw [collapseWs, hw] at h
      exact absurd h (joinSep_ne_nil [' '] ws hwne)
  · intro h
    rw [collapseWs, h]
    rfl

theorem collapseWs_last_not_ws {texto : Str} (h : pySplitWs texto ≠ []) :
    ∃ c, (collapseWs texto).getLast? = some c ∧ isPySpace c = false := by
  cases hw : pySplitWs texto with
  | nil => exact absurd hw h
  | cons w ws =>
    obtain ⟨x, hx, he⟩ := getLast?_joinSep [' '] (w :: ws)
      (fun v hv => (pySplitWs_words (by rw [hw]; exact hv)).1) (by simp)
    have hxw := pySplitWs_words (s := texto) (w := x) (by rw [hw]; exact hx)
    cases hl : x.getLast? with
    | none =>
      rw [List.getLast?_eq_none_iff] at hl
      exact absurd hl hxw.1
    | some c =>
      refine ⟨c, ?_, hxw.2 c (getLast?_mem_str hl)⟩
      rw [collapseWs, hw, he, hl]

theorem slicesAux_spec (maxChars : Nat) (hm : 1 ≤ maxChars) :
    ∀ (fuel : Nat) (s : Str), s.length ≤ fuel →
      ∀ c ∈ slicesAux maxChars fuel s, c ≠ [] ∧ strLen c ≤ maxChars := by
  intro fuel
  induction fuel with
  | zero =>
    intro s hs c hc
    cases s with
    | nil => simp [slicesAux] at hc
    | cons a as => simp at hs
  | succ n ih =>
    intro s hs c hc
    cases s with
    | nil => simp [slicesAux] at hc
    | cons a as =>
      have heq : slicesAux maxChars (n + 1) (a :: as) =
          (a :: as).take maxChars :: slicesAux maxChars n ((a :: as).drop maxChars) := rfl
      rw [heq] at hc
      rcases List.mem_cons.1 hc with h1 | h1
      · subst h1
        constructor
        · cases maxChars with
          | zero => omega
          | succ m => simp [List.take_cons]
        · rw [strLen_eq_length]
          exact List.length_take_le maxChars (a :: as)
      · apply ih _ _ c h1
        rw [List.length_drop]
        simp only [List.length_cons] at hs ⊢
        omega

theorem greedy_nil_of_frases_nil (maxChars : Nat) :
    greedyChunksAux maxChars [] [] = [] := by
  rw [greedyChunksAux]; simp

/-- C5: for every input text and `max_chars`, every chunk produced by
`dividir_texto_em_chunks` is non-empty and is either within the size
bound or is a single sentence (an element of the sentence list) that
alone exceeds the bound. -/
theorem C5_chunk_size_bound (texto : Str) (maxChars : Nat) (out : List Str)
    (hout : dividir_texto_em_chunks texto maxChars = some out) :
    ∀ c ∈ out, c ≠ [] ∧ (strLen c ≤ maxChars ∨
      (c ∈ mkFrases (collapseWs texto) ∧ maxChars < strLen c)) := by
  intro c hc
  rw [dividir_texto_em_chunks] at hout
  by_cases hch : greedyChunksAux maxChars (mkFrases (collapseWs texto)) [] = []
  · rw [if_pos (by simp [hch])] at hout
    by_cases h0 : maxChars = 0
    · rw [if_pos h0] at hout; simp at hout
    · rw [if_neg h0] at hout
      have hout' : out = slicesAux maxChars (strLen (collapseWs texto)) (collapseWs texto) := by
        simpa using hout.symm
      rw [hout'] at hc
      have := slicesAux_spec maxChars (by omega) (strLen (collapseWs texto))
        (collapseWs texto) (by rw [strLen_eq_length]) c hc
      exact ⟨this.1, Or.inl this.2⟩
  · rw [if_neg (by simp [hch])] at hout
    have hout' : out = greedyChunksAux maxChars (mkFrases (collapseWs texto)) [] := by
      simpa using hout.symm
    rw [hout'] at hc
    have := greedy_chunks_spec maxChars (mkFrases (collapseWs texto))
      (mkFrases (collapseWs texto)) []
      (fun f hf => ⟨mkFrases_good f hf, hf⟩) (Or.inl rfl) c hc
    refine ⟨this.1, ?_⟩
    rcases this.2 with h | h
    · exact Or.inl h
    · by_cases hle : strLen c ≤ maxChars
      · exact Or.inl hle
      · exact Or.inr ⟨h, by omega⟩

theorem C5_chunk_size_bound_witness :
    "Hello world. Bye..".data ≠ [] ∧ (strLen "Hello world. Bye..".data ≤ 4000 ∨
      ("Hello world. Bye..".data ∈ mkFrases (collapseWs "Hello world. Bye.".data) ∧
        4000 < strLen "Hello world. Bye..".data)) :=
  C5_chunk_size_bound "Hello world. Bye.".data 4000 ["Hello world. Bye..".data]
    (by decide) "Hello world. Bye..".data (by decide)

/-- C6 (amended): concatenating the chunk outputs with the single
inter-chunk space reproduces the sentence-renormalised form of the
whitespace-collapsed input (the `'. '`-split fragments, empties dropped,
each re-terminated with a period, joined by single spaces), in order —
not the whitespace-collapsed input itself. -/
theorem C6_chunk_reassembly (texto : Str) (maxChars : Nat) (out : List Str)
    (hout : dividir_texto_em_chunks texto maxChars = some out) :
    joinSep [' '] out = joinSep [' '] (mkFrases (collapseWs texto)) := by
  rw [dividir_texto_em_chunks] at hout
  by_cases hch : greedyChunksAux maxChars (mkFrases (collapseWs texto)) [] = []
  · cases hf : mkFrases (collapseWs texto) with
    | cons f fr =>
      exfalso
      rw [hf, greedy_start] at hch
      exact greedy_ne_nil maxChars fr f
        (goodStr_ne_nil (mkFrases_good f (by rw [hf]; simp))) hch
    | nil =>
      have hlimpo : collapseWs texto = [] := by
        by_cases hlw : pySplitWs texto = []
        · exact (collapseWs_eq_nil_iff texto).2 hlw
        · obtain ⟨c, hc, hns⟩ := collapseWs_last_not_ws hlw
          exact absurd hf (mkFrases_ne_nil hc hns)
      rw [if_pos (by simp [hch])] at hout
      by_cases h0 : maxChars = 0
      · rw [if_pos h0] at hout; simp at hout
      · rw [if_neg h0] at hout
        have hout' : out = slicesAux maxChars (strLen (collapseWs texto)) (collapseWs texto) := by
          simpa using hout.symm
        rw [hlimpo] at hout'
        have : out = [] := by
          rw [hout']
          cases h : strLen ([] : Str) <;> rfl
        rw [this]
  · rw [if_neg (by simp [hch])] at hout
    have hout' : out = greedyChunksAux maxChars (mkFrases (collapseWs texto)) [] := by
      simpa using hout.symm
    cases hf : mkFrases (collapseWs texto) with
    | nil =>
      exfalso
      rw [hf, greedy_nil_of_frases_nil] at hch
      exact hch rfl
    | cons f fr =>
      rw [hout', hf, greedy_start]
      rw [greedy_join maxChars fr f
        (fun g hg => mkFrases_good g (by rw [hf]; simp [hg]))
        (mkFrases_good f (by rw [hf]; simp))]

theorem C6_chunk_reassembly_witness :
    joinSep [' '] ["Hello world. Bye..".data] =
      joinSep [' '] (mkFrases (collapseWs "Hello world. Bye.".data)) :=
  C6_chunk_reassembly "Hello world. Bye.".data 4000 ["Hello world. Bye..".data] (by decide)

theorem C6_counterexample :
    dividir_texto_em_chunks "Hi".data 4000 = some ["Hi.".data] ∧
    joinSep [' '] ["Hi.".data] ≠ collapseWs "Hi".data := by
  decide

/-- C9 (amended): the automatic title is non-empty exactly when the
content has at least one whitespace-separated word (so a non-empty but
whitespace-only content yields an empty title; there is no fixed
placeholder), and the result never exceeds 120 characters. -/
theorem C9_title_extractor (texto : Str) :
    (_extrair_titulo_automatico texto ≠ [] ↔ pySplitWs texto ≠ []) ∧
    strLen (_extrair_titulo_automatico texto) ≤ 120 := by
  rw [_extrair_titulo_automatico]
  cases hw : pySplitWs texto with
  | nil =>
    simp only [hw, List.take_nil]
    have h15 : ¬(strLen ([] : List Str) = 15 ∧ 15 < strLen ([] : List Str)) := by decide
    rw [if_neg h15]
    have hj : joinSep [' '] ([] : List Str) = [] := rfl
    rw [hj]
    have h120 : ¬(120 < strLen ([] : Str)) := by decide
    rw [if_neg h120]
    exact ⟨by simp [hw], by decide⟩
  | cons w ws =>
    have hwne : w ≠ [] := (pySplitWs_words (s := texto) (w := w) (by rw [hw]; simp)).1
    have ht0 : joinSep [' '] ((w :: ws).take 15) ≠ [] := by
      rw [List.take_cons (by omega)]
      exact joinSep_ne_nil [' '] _ hwne
    set t0 := joinSep [' '] ((w :: ws).take 15) with ht0def
    set t1 := if strLen ((w :: ws).take 15) = 15 ∧ 15 < strLen (w :: ws) then
        t0 ++ "...".data else t0 with ht1def
    have ht1 : t1 ≠ [] := by
      rw [ht1def]
      split
      · simp
      · exact ht0
    constructor
    · by_cases h120 : 120 < strLen t1
      · rw [if_pos h120]
        constructor
        · intro _ h; simp at h
        · intro _; simp
      · rw [if_neg h120]
        constructor
        · intro _ h; simp at h
        · intro _; exact ht1
    · by_cases h120 : 120 < strLen t1
      · rw [if_pos h120]
        rw [strLen_eq_length] at h120 ⊢
        simp only [List.length_append, List.length_take]
        have : ("...".data : Str).length = 3 := rfl
        rw [this]
        omega
      · rw [if_neg h120]
        omega

theorem C9_title_extractor_witness :
    (_extrair_titulo_automatico "hello world".data ≠ [] ↔
      pySplitWs "hello world".data ≠ []) ∧
    strLen (_extrair_titulo_automatico "hello world".data) ≤ 120 :=
  C9_title_extractor "hello world".data

theorem C9_counterexample :
    _extrair_titulo_automatico " ".data = [] ∧ " ".data ≠ ([] : Str) := by
  decide

/-! Segmentation support lemmas -/

theorem blocosFromGroups_map_numero :
    ∀ (gs : List (List Str)) (n off : Nat),
      (blocosFromGroups gs n off).map Bloco.numero_bloco = List.range' n gs.length := by
  intro gs
  induction gs with
  | nil => intro n off; rfl
  | cons g rest ih =>
    intro n off
    rw [blocosFromGroups]
    simp only [List.map_cons, List.length_cons]
    rw [ih]
    rfl

theorem blocosFromGroups_map_conteudo :
    ∀ (gs : List (List Str)) (n off : Nat),
      (blocosFromGroups gs n off).map Bloco.conteudo = gs.map (joinSep "\n\n".data) := by
  intro gs
  induction gs with
  | nil => intro n off; rfl
  | cons g rest ih =>
    intro n off
    rw [blocosFromGroups]
    simp only [List.map_cons]
    rw [ih]

theorem blocosFromSentGroups_map_numero :
    ∀ (gs : List (List Str)) (n off : Nat),
      (blocosFromSentGroups gs n off).map Bloco.numero_bloco = List.range' n gs.length := by
  intro gs
  induction gs with
  | nil => intro n off; rfl
  | cons g rest ih =>
    intro n off
    rw [blocosFromSentGroups]
    simp only [List.map_cons, List.length_cons]
    rw [ih]
    rfl

theorem blocosManualPathAux_map_numero (texto : Str) (total : Nat) :
    ∀ (triples : List (Str × Str × Str)) (i off : Nat),
      (blocosManualPathAux texto total triples i off).map Bloco.numero_bloco =
        List.range' i triples.length := by
  intro triples
  induction triples with
  | nil => intro i off; rfl
  | cons t rest ih =>
    intro i off
    obtain ⟨nome, m, r⟩ := t
    rw [blocosManualPathAux]
    cases searchManualFrom texto off with
    | some mm =>
      obtain ⟨inicio, fim, g⟩ := mm
      simp only [List.map_cons, List.length_cons]
      rw [ih]
      rfl
    | none =>
      simp only [List.map_cons, List.length_cons]
      rw [ih]
      rfl

theorem blocosManualPathAux_tipo (texto : Str) (total : Nat) :
    ∀ (triples : List (Str × Str × Str)) (i off : Nat),
      ∀ b ∈ blocosManualPathAux texto total triples i off,
        b.tipo_demarcacao = "manual".data := by
  intro triples
  induction triples with
  | nil => intro i off b hb; simp [blocosManualPathAux] at hb
  | cons t rest ih =>
    intro i off b hb
    obtain ⟨nome, m, r⟩ := t
    rw [blocosManualPathAux] at hb
    rcases hsm : searchManualFrom texto off with _ | mm
    · simp only [hsm] at hb
      rcases List.mem_cons.1 hb with h1 | h1
      · rw [h1]
      · exact ih _ _ b h1
    · obtain ⟨inicio, fim, g⟩ := mm
      simp only [hsm] at hb
      rcases List.mem_cons.1 hb with h1 | h1
      · rw [h1]
      · exact ih _ _ b h1

theorem agrupar_ne_nil (trans : List Str) :
    ∀ (rest : List Str) (cur : List Str) (chars : Nat), cur ≠ [] →
      agruparParagrafosAux trans rest cur chars ≠ [] := by
  intro rest
  induction rest with
  | nil =>
    intro cur chars h
    rw [agruparParagrafosAux]
    simp [h]
  | cons p rs ih =>
    intro cur chars h
    rw [agruparParagrafosAux]
    split
    · simp
    · exact ih _ _ (by simp)

theorem agruparSent_ne_nil :
    ∀ (rest : List Str) (cur : List Str) (chars : Nat), cur ≠ [] →
      agruparSentencasAux rest cur chars ≠ [] := by
  intro rest
  induction rest with
  | nil =>
    intro cur chars h
    rw [agruparSentencasAux]
    simp [h]
  | cons p rs ih =>
    intro cur chars h
    rw [agruparSentencasAux]
    split
    · simp
    · exact ih _ _ (by simp)

theorem seg_short {texto idioma : Str} (h : strLen texto < 1000) :
    segmentar_narrativa_em_blocos texto idioma =
      [{ numero_bloco := 1, titulo_bloco := _extrair_titulo_automatico texto,
         conteudo := texto, inicio_char := 0, fim_char := strLen texto,
         tipo_demarcacao := "auto".data, meta := none, regras := none }] := by
  rw [segmentar_narrativa_em_blocos, if_pos h]

theorem seg_manual {texto idioma : Str} (h : ¬ strLen texto < 1000)
    (hms : finditerManual texto ≠ []) :
    segmentar_narrativa_em_blocos texto idioma =
      blocosManualPath texto
        ((finditerManual texto).map (fun m => (m.2.2.1, m.2.2.2.1, m.2.2.2.2))) := by
  rw [segmentar_narrativa_em_blocos, if_neg h]
  cases hm : finditerManual texto with
  | nil => exact absurd hm hms
  | cons m ms => simp

theorem seg_auto {texto idioma : Str} (h : ¬ strLen texto < 1000)
    (hms : finditerManual texto = []) :
    segmentar_narrativa_em_blocos texto idioma =
      _segmentar_automaticamente texto (getTransicoes (pyLower idioma)) := by
  rw [segmentar_narrativa_em_blocos, if_neg h, hms]
  simp

theorem auto_sent {texto : Str} {trans : List Str} (h : (parasOf texto).length = 1) :
    _segmentar_automaticamente texto trans = _segmentar_por_sentencas texto trans := by
  rw [_segmentar_automaticamente, if_pos h]

theorem auto_par {texto : Str} {trans : List Str} (h : ¬ (parasOf texto).length = 1) :
    _segmentar_automaticamente texto trans =
      blocosFromGroups (agruparParagrafosAux trans (parasOf texto) [] 0) 1 0 := by
  rw [_segmentar_automaticamente, if_neg h]

theorem sent_ne {texto : Str} {trans : List Str} (h : sentencasOf texto ≠ []) :
    _segmentar_por_sentencas texto trans ≠ [] := by
  rw [_segmentar_por_sentencas]
  cases hs : sentencasOf texto with
  | nil => exact absurd hs h
  | cons s ss =>
    have hg : agruparSentencasAux (s :: ss) [] 0 ≠ [] := by
      rw [agruparSentencasAux, if_neg (by simp)]
      exact agruparSent_ne_nil ss [s] (0 + strLen s) (by simp)
    cases hgr : agruparSentencasAux (s :: ss) [] 0 with
    | nil => exact absurd hgr hg
    | cons g gs => rw [blocosFromSentGroups]; simp

theorem par_ne {texto : Str} {trans : List Str} (h : parasOf texto ≠ []) :
    blocosFromGroups (agruparParagrafosAux trans (parasOf texto) [] 0) 1 0 ≠ [] := by
  cases hp : parasOf texto with
  | nil => exact absurd hp h
  | cons p ps =>
    have hg : agruparParagrafosAux trans (p :: ps) [] 0 ≠ [] := by
      rw [agruparParagrafosAux, if_neg (by simp)]
      exact agrupar_ne_nil trans ps [p] (0 + strLen p) (by simp)
    cases hgr : agruparParagrafosAux trans (p :: ps) [] 0 with
    | nil => exact absurd hgr hg
    | cons g gs => rw [blocosFromGroups]; simp

theorem manual_ne {texto : Str} {t : Str × Str × Str} {ts : List (Str × Str × Str)} :
    blocosManualPath texto (t :: ts) ≠ [] := by
  obtain ⟨nome, m, r⟩ := t
  rw [blocosManualPath, blocosManualPathAux]
  rcases hsm : searchManualFrom texto 0 with _ | mm
  · simp
  · obtain ⟨a, b, c⟩ := mm
    simp

theorem seg_numbering (texto idioma : Str) :
    (segmentar_narrativa_em_blocos texto idioma).map Bloco.numero_bloco =
      List.range' 1 (segmentar_narrativa_em_blocos texto idioma).length := by
  by_cases h1000 : strLen texto < 1000
  · rw [seg_short h1000]
    rfl
  · by_cases hms : finditerManual texto = []
    · rw [seg_auto h1000 hms]
      by_cases hpar : (parasOf texto).length = 1
      · rw [auto_sent hpar, _segmentar_por_sentencas]
        have hmap := blocosFromSentGroups_map_numero
          (agruparSentencasAux (sentencasOf texto) [] 0) 1 0
        have hlen : (blocosFromSentGroups (agruparSentencasAux (sentencasOf texto) [] 0) 1 0).length =
            (agruparSentencasAux (sentencasOf texto) [] 0).length := by
          rw [← List.length_map (f := Bloco.numero_bloco), hmap, List.length_range']
        rw [hmap, hlen]
      · rw [auto_par hpar]
        have hmap := blocosFromGroups_map_numero
          (agruparParagrafosAux (getTransicoes (pyLower idioma)) (parasOf texto) [] 0) 1 0
        have hlen : (blocosFromGroups (agruparParagrafosAux (getTransicoes (pyLower idioma)) (parasOf texto) [] 0) 1 0).length =
            (agruparParagrafosAux (getTransicoes (pyLower idioma)) (parasOf texto) [] 0).length := by
          rw [← List.length_map (f := Bloco.numero_bloco), hmap, List.length_range']
        rw [hmap, hlen]
    · rw [seg_manual h1000 hms, blocosManualPath]
      have hmap := blocosManualPathAux_map_numero texto
        (strLen ((finditerManual texto).map (fun m => (m.2.2.1, m.2.2.2.1, m.2.2.2.2))))
        ((finditerManual texto).map (fun m => (m.2.2.1, m.2.2.2.1, m.2.2.2.2))) 1 0
      have hlen := congrArg List.length hmap
      rw [List.length_map, List.length_range'] at hlen
      rw [hmap, hlen]

/-- C1 (amended): for every input, the block numbers of
`segmentar_narrativa_em_blocos` are exactly `1..N` (contiguous,
ascending, starting at 1); the result is non-empty whenever the input is
shorter than 1000 characters, or manual structure is detected, or at
least two non-empty paragraphs exist, or the sentence fallback finds at
least one sentence — but not for every non-empty input (see the
counterexample: 1000 copies of `a` yield an empty result). -/
theorem C1_block_numbering (texto idioma : Str) :
    ((segmentar_narrativa_em_blocos texto idioma).map Bloco.numero_bloco =
      List.range' 1 (segmentar_narrativa_em_blocos texto idioma).length) ∧
    (strLen texto < 1000 → segmentar_narrativa_em_blocos texto idioma ≠ []) ∧
    (finditerManual texto ≠ [] → 1000 ≤ strLen texto →
      segmentar_narrativa_em_blocos texto idioma ≠ []) ∧
    (finditerManual texto = [] → 1000 ≤ strLen texto → 2 ≤ (parasOf texto).length →
      segmentar_narrativa_em_blocos texto idioma ≠ []) ∧
    (finditerManual texto = [] → 1000 ≤ strLen texto → (parasOf texto).length = 1 →
      sentencasOf texto ≠ [] → segmentar_narrativa_em_blocos texto idioma ≠ []) := by
  refine ⟨seg_numbering texto idioma, ?_, ?_, ?_, ?_⟩
  · intro h
    rw [seg_short h]
    simp
  · intro hms h1000
    rw [seg_manual (by omega) hms]
    cases hm : finditerManual texto with
    | nil => exact absurd hm hms
    | cons m ms =>
      simp only [List.map_cons]
      exact manual_ne
  · intro hms h1000 h2
    rw [seg_auto (by omega) hms]
    have hpar : ¬ (parasOf texto).length = 1 := by omega
    rw [auto_par hpar]
    exact par_ne (by intro hp; rw [hp] at h2; simp at h2)
  · intro hms h1000 hpar hsent
    rw [seg_auto (by omega) hms, auto_sent hpar]
    exact sent_ne hsent

set_option maxRecDepth 100000 in
/-- C1 counterexample: a non-empty input (1000 copies of `a`: no
paragraph break, no sentence punctuation) for which segmentation
silently returns the empty sequence, refuting the claim as stated. -/
theorem C1_counterexample :
    segmentar_narrativa_em_blocos (List.replicate 1000 'a') "português".data = [] ∧
    List.replicate 1000 'a' ≠ ([] : Str) := by
  decide

theorem C1_block_numbering_witness :
    ((segmentar_narrativa_em_blocos "abc".data "português".data).map Bloco.numero_bloco =
      List.range' 1 (segmentar_narrativa_em_blocos "abc".data "português".data).length) ∧
    segmentar_narrativa_em_blocos "abc".data "português".data ≠ [] :=
  ⟨(C1_block_numbering "abc".data "português".data).1,
   (C1_block_numbering "abc".data "português".data).2.1 (by decide)⟩

/-- C4 (amended): for every input of length at least 1000 in which the
manual part/meta/rules structure is detected, every returned block has
`tipo_demarcacao = "manual"` — but inputs below 1000 characters take the
short-text shortcut and come back as a single `auto` block even when
they contain a well-formed triplet (see the counterexample). -/
theorem C4_manual_exclusivity (texto idioma : Str) (h1000 : 1000 ≤ strLen texto)
    (hms : finditerManual texto ≠ []) :
    ∀ b ∈ segmentar_narrativa_em_blocos texto idioma,
      b.tipo_demarcacao = "manual".data := by
  intro b hb
  rw [segmentar_narrativa_em_blocos] at hb
  rw [if_neg (by omega)] at hb
  cases hm : finditerManual texto with
  | nil => exact absurd hm hms
  | cons m ms =>
    rw [hm] at hb
    simp only [List.map_cons, List.isEmpty_cons, Bool.false_eq_true, if_false] at hb
    exact blocosManualPathAux_tipo texto _ _ 1 0 b hb

set_option maxRecDepth 100000 in
theorem C4_manual_exclusivity_witness :
    ((segmentar_narrativa_em_blocos
        ("# PARTE 1: A\n# META: B\n# REGRAS: ".data ++ List.replicate 1000 'c')
        "português".data).headD defaultBloco).tipo_demarcacao = "manual".data :=
  C4_manual_exclusivity
    ("# PARTE 1: A\n# META: B\n# REGRAS: ".data ++ List.replicate 1000 'c')
    "português".data (by decide) (by decide)
    ((segmentar_narrativa_em_blocos
        ("# PARTE 1: A\n# META: B\n# REGRAS: ".data ++ List.replicate 1000 'c')
        "português".data).headD defaultBloco) (by decide)

/-- C4 counterexample: a short input containing a well-formed
part/meta/rules triplet is returned as a single `auto` block (the
short-text shortcut runs before manual detection). -/
theorem C4_counterexample :
    finditerManual "# PARTE 1: A\n# META: B\n# REGRAS: C".data ≠ [] ∧
    (segmentar_narrativa_em_blocos "# PARTE 1: A\n# META: B\n# REGRAS: C".data
        "português".data).map Bloco.tipo_demarcacao = ["auto".data] := by
  decide

theorem sumLen_append (a b : List Str) : sumLen (a ++ b) = sumLen a + sumLen b := by
  simp [sumLen]

theorem sumLen_singleton (p : Str) : sumLen [p] = p.length := by
  simp [sumLen]

theorem agrupar_head_ext (trans : List Str) :
    ∀ (rest : List Str) (cur : List Str) (chars : Nat), cur ≠ [] →
      ∃ ext gs, agruparParagrafosAux trans rest cur chars = (cur ++ ext) :: gs := by
  intro rest
  induction rest with
  | nil =>
    intro cur chars h
    refine ⟨[], [], ?_⟩
    rw [agruparParagrafosAux, if_neg (by simp [h])]
    simp
  | cons p rs ih =>
    intro cur chars h
    rw [agruparParagrafosAux]
    split
    · refine ⟨[], agruparParagrafosAux trans rs [p] (strLen p), ?_⟩
      simp
    · obtain ⟨ext, gs, heq⟩ := ih (cur ++ [p]) (chars + strLen p) (by simp)
      exact ⟨[p] ++ ext, gs, by rw [heq, List.append_assoc]⟩

theorem agrupar_inv (trans : List Str) :
    ∀ (rest cur : List Str) (chars : Nat), chars = sumLen cur →
      (2 ≤ cur.length → sumLen cur < 2000) →
      (∀ g ∈ agruparParagrafosAux trans rest cur chars, 2 ≤ g.length → sumLen g < 2000) ∧
      List.Chain' (fun g1 g2 => 1200 ≤ sumLen g1 ∨ 2000 ≤ sumLen g1 + (g2.headD []).length)
        (agruparParagrafosAux trans rest cur chars) := by
  intro rest
  induction rest with
  | nil =>
    intro cur chars hchars hcur
    rw [agruparParagrafosAux]
    by_cases h : cur = []
    · rw [if_pos (by simp [h])]
      exact ⟨by simp, by simp⟩
    · rw [if_neg (by simp [h])]
      refine ⟨?_, List.chain'_singleton cur⟩
      intro g hg
      simp at hg
      rw [hg]
      exact hcur
  | cons p rs ih =>
    intro cur chars hchars hcur
    rw [agruparParagrafosAux]
    by_cases hcond : ((1200 ≤ chars ∧ (1600 ≤ chars + strLen p ∨
        temTransicao trans p = true ∨ rs = [])) ∨ 2000 ≤ chars + strLen p) ∧ cur ≠ []
    · rw [if_pos hcond]
      have hrec := ih [p] (strLen p)
        (by rw [sumLen_singleton, strLen_eq_length]) (by intro h2; simp at h2)
      refine ⟨?_, ?_⟩
      · intro g hg
        rcases List.mem_cons.1 hg with h1 | h1
        · rw [h1]; exact hcur
        · exact hrec.1 g h1
      · rw [List.chain'_cons']
        refine ⟨?_, hrec.2⟩
        intro y hy
        obtain ⟨ext, gs, heq⟩ := agrupar_head_ext trans rs [p] (strLen p) (by simp)
        rw [heq] at hy
        simp at hy
        subst hy
        simp only [List.cons_append, List.headD_cons]
        rcases hcond.1 with hl | hr
        · left; rw [← hchars]; exact hl.1
        · right
          rw [← hchars]
          rw [strLen_eq_length] at hr
          exact hr
    · rw [if_neg hcond]
      apply ih (cur ++ [p]) (chars + strLen p)
      · rw [sumLen_append, sumLen_singleton, hchars, strLen_eq_length]
      · intro h2
        have hne : cur ≠ [] := by
          intro h0
          rw [h0] at h2
          simp at h2
        have hnor : ¬ ((1200 ≤ chars ∧ (1600 ≤ chars + strLen p ∨
            temTransicao trans p = true ∨ rs = [])) ∨ 2000 ≤ chars + strLen p) := by
          intro hor
          exact hcond ⟨hor, hne⟩
        push_neg at hnor
        have h2000 := hnor.2
        rw [sumLen_append, sumLen_singleton, ← hchars]
        rw [strLen_eq_length] at h2000
        omega

/-- C3 (amended): on the auto paragraph path, the sum of the paragraph
lengths of any block built from two or more paragraphs is under 2000
characters (a block made of a single oversized paragraph may exceed
2000, and the two-character `\n\n` joiners are not counted by the
grouping loop); every non-final block either reaches the 1200-character
floor or was closed by the 2000 hard cap (its count plus the first
paragraph of the next block reaches 2000) — the transition cue is not an
exception to the floor, since cue-triggered breaks also require the
floor. -/
theorem C3_auto_size_discipline (texto : Str) (trans : List Str)
    (hpar : (parasOf texto).length ≠ 1) :
    ((_segmentar_automaticamente texto trans).map Bloco.conteudo =
      (agruparParagrafosAux trans (parasOf texto) [] 0).map (joinSep "\n\n".data)) ∧
    (∀ g ∈ agruparParagrafosAux trans (parasOf texto) [] 0,
      2 ≤ g.length → sumLen g < 2000) ∧
    List.Chain' (fun g1 g2 => 1200 ≤ sumLen g1 ∨ 2000 ≤ sumLen g1 + (g2.headD []).length)
      (agruparParagrafosAux trans (parasOf texto) [] 0) := by
  refine ⟨?_, ?_, ?_⟩
  · rw [auto_par hpar]
    exact blocosFromGroups_map_conteudo _ 1 0
  · exact (agrupar_inv trans (parasOf texto) [] 0 (by simp [sumLen]) (by simp)).1
  · exact (agrupar_inv trans (parasOf texto) [] 0 (by simp [sumLen]) (by simp)).2

theorem C3_auto_size_discipline_witness :
    ((_segmentar_automaticamente "aa\n\nbb".data []).map Bloco.conteudo =
      (agruparParagrafosAux [] (parasOf "aa\n\nbb".data) [] 0).map (joinSep "\n\n".data)) ∧
    (∀ g ∈ agruparParagrafosAux [] (parasOf "aa\n\nbb".data) [] 0,
      2 ≤ g.length → sumLen g < 2000) ∧
    List.Chain' (fun g1 g2 => 1200 ≤ sumLen g1 ∨ 2000 ≤ sumLen g1 + (g2.headD []).length)
      (agruparParagrafosAux [] (parasOf "aa\n\nbb".data) [] 0) :=
  C3_auto_size_discipline "aa\n\nbb".data [] (by decide)

set_option maxRecDepth 100000 in
/-- C3 counterexample: a two-paragraph auto-mode input whose first
paragraph has 2100 characters produces a block whose content length is
2100 > 2000, refuting the 2000-character bound as stated. -/
theorem C3_counterexample :
    (segmentar_narrativa_em_blocos
        (List.replicate 2100 'a' ++ "\n\n".data ++ List.replicate 600 'b')
        "português".data).map (fun b => (strLen b.conteudo, b.tipo_demarcacao)) =
      [(2100, "auto".data), (600, "auto".data)] ∧ 2000 < 2100 := by
  decide

theorem appendNl2All_nil : appendNl2All [] = [] := rfl

theorem appendNl2All_cons (o : Str) (outs : List Str) :
    appendNl2All (o :: outs) = (o ++ "\n\n".data) ++ appendNl2All outs := by
  simp [appendNl2All]

theorem appendNl2All_eq_join (outs : List Str) (h : outs ≠ []) :
    appendNl2All outs = joinSep "\n\n".data outs ++ "\n\n".data := by
  induction outs with
  | nil => exact absurd rfl h
  | cons o rest ih =>
    cases rest with
    | nil => simp [appendNl2All, joinSep]
    | cons o2 r2 =>
      rw [appendNl2All_cons, ih (by simp)]
      rw [joinSep_cons_of_ne "\n\n".data o (show (o2 :: r2 : List Str) ≠ [] by simp)]
      simp [List.append_assoc]

theorem goodStr_joinSep {outs : List Str} (hall : ∀ o ∈ outs, goodStr o = true)
    (h : outs ≠ []) : goodStr (joinSep "\n\n".data outs) = true := by
  cases outs with
  | nil => exact absurd rfl h
  | cons o rest =>
    have ho := hall o (by simp)
    apply goodStr_mk
    · exact joinSep_ne_nil _ _ (goodStr_ne_nil ho)
    · intro c hc
      rw [head?_joinSep _ _ (goodStr_ne_nil ho)] at hc
      exact goodStr_head ho hc
    · intro c hc
      obtain ⟨w, hw, he⟩ := getLast?_joinSep "\n\n".data (o :: rest)
        (fun v hv => goodStr_ne_nil (hall v hv)) (by simp)
      rw [he] at hc
      exact goodStr_last (hall w hw) hc

theorem runGenerationBlocosAux_spec (gen : Str → Str) (persona idioma premissa : Str)
    (total : Nat) :
    ∀ (blocos : List Bloco) (acc : Str),
      (runGenerationBlocosAux gen persona idioma premissa total blocos acc).2.length =
        blocos.length ∧
      (runGenerationBlocosAux gen persona idioma premissa total blocos acc).1 =
        acc ++ appendNl2All
          ((runGenerationBlocosAux gen persona idioma premissa total blocos acc).2.map Prod.snd) ∧
      (∀ i, i < blocos.length →
        (runGenerationBlocosAux gen persona idioma premissa total blocos acc).2.getD i ([], []) =
          (promptBloco persona idioma premissa total (blocos.getD i defaultBloco)
              (acc ++ appendNl2All
                (((runGenerationBlocosAux gen persona idioma premissa total blocos acc).2.map
                  Prod.snd).take i)),
           gen (promptBloco persona idioma premissa total (blocos.getD i defaultBloco)
              (acc ++ appendNl2All
                (((runGenerationBlocosAux gen persona idioma premissa total blocos acc).2.map
                  Prod.snd).take i))))) := by
  intro blocos
  induction blocos with
  | nil =>
    intro acc
    refine ⟨rfl, by simp [runGenerationBlocosAux, appendNl2All], ?_⟩
    intro i hi
    simp at hi
  | cons b rest ih =>
    intro acc
    obtain ⟨ihlen, ihfin, ihidx⟩ := ih
      (acc ++ gen (promptBloco persona idioma premissa total b acc) ++ "\n\n".data)
    rw [runGenerationBlocosAux]
    refine ⟨?_, ?_, ?_⟩
    · simp only [List.length_cons]
      exact congrArg (fun n => n + 1) ihlen
    · simp only [List.map_cons]
      rw [appendNl2All_cons, ihfin]
      simp [List.append_assoc]
    · intro i hi
      cases i with
      | zero =>
        simp only [List.getD_cons_zero, List.map_cons, List.take_zero, appendNl2All_nil,
          List.append_nil]
      | succ j =>
        simp only [List.getD_cons_succ, List.map_cons, List.take_succ_cons,
          appendNl2All_cons]
        have hj : j < rest.length := by simp at hi; omega
        rw [ihidx j hj]
        simp [List.append_assoc]

/-- C2: the sequential builder issues exactly one generation call per
block, in order; the `i`-th call's prompt is built (by `promptBloco`,
which embeds the last-2000-character context or the start-of-script
marker) from the script accumulated from the previous outputs; each
output is appended to the accumulator followed by a double newline,
unconditionally; and the final script is that accumulation stripped —
equal to the outputs joined by double newlines whenever each output is
itself non-empty with non-whitespace ends. -/
theorem C2_sequential_builder (gen : Str → Str) (persona idioma premissa : Str)
    (blocos : List Bloco) :
    ((runGenerationBlocos gen persona idioma premissa blocos).2).length = blocos.length ∧
    (∀ i, i < blocos.length →
      (runGenerationBlocos gen persona idioma premissa blocos).2.getD i ([], []) =
        (promptBloco persona idioma premissa (strLen blocos) (blocos.getD i defaultBloco)
            (appendNl2All
              (((runGenerationBlocos gen persona idioma premissa blocos).2.map
                Prod.snd).take i)),
         gen (promptBloco persona idioma premissa (strLen blocos) (blocos.getD i defaultBloco)
            (appendNl2All
              (((runGenerationBlocos gen persona idioma premissa blocos).2.map
                Prod.snd).take i))))) ∧
    (runGenerationBlocos gen persona idioma premissa blocos).1 =
      pyStrip (appendNl2All
        ((runGenerationBlocos gen persona idioma premissa blocos).2.map Prod.snd)) ∧
    ((∀ o ∈ (runGenerationBlocos gen persona idioma premissa blocos).2.map Prod.snd,
        goodStr o = true) →
      (runGenerationBlocos gen persona idioma premissa blocos).1 =
        joinSep "\n\n".data
          ((runGenerationBlocos gen persona idioma premissa blocos).2.map Prod.snd)) := by
  obtain ⟨hlen, hfin, hidx⟩ :=
    runGenerationBlocosAux_spec gen persona idioma premissa (strLen blocos) blocos []
  have hsnd : (runGenerationBlocos gen persona idioma premissa blocos).2 =
      (runGenerationBlocosAux gen persona idioma premissa (strLen blocos) blocos []).2 := rfl
  have hfst : (runGenerationBlocos gen persona idioma premissa blocos).1 =
      pyStrip (runGenerationBlocosAux gen persona idioma premissa (strLen blocos) blocos []).1 := rfl
  refine ⟨by rw [hsnd, hlen], ?_, ?_, ?_⟩
  · intro i hi
    rw [hsnd]
    have := hidx i hi
    simpa using this
  · rw [hfst, hsnd, hfin]
    simp
  · intro hall
    rw [hfst, hfin, hsnd]
    simp only [List.nil_append]
    rw [hsnd] at hall
    cases houts : (runGenerationBlocosAux gen persona idioma premissa (strLen blocos) blocos
        []).2.map Prod.snd with
    | nil => rfl
    | cons o os =>
      rw [houts] at hall
      rw [appendNl2All_eq_join _ (by simp)]
      rw [pyStrip_append_ws (goodStr_joinSep hall (by simp)) (by decide)]

theorem C2_sequential_builder_witness :
    ((runGenerationBlocos genOK "P".data "pt".data "prem".data [blocoW1, blocoW2]).2).length =
      [blocoW1, blocoW2].length ∧
    (runGenerationBlocos genOK "P".data "pt".data "prem".data [blocoW1, blocoW2]).1 =
      joinSep "\n\n".data
        ((runGenerationBlocos genOK "P".data "pt".data "prem".data
          [blocoW1, blocoW2]).2.map Prod.snd) :=
  ⟨(C2_sequential_builder genOK "P".data "pt".data "prem".data [blocoW1, blocoW2]).1,
   (C2_sequential_builder genOK "P".data "pt".data "prem".data [blocoW1, blocoW2]).2.2.2
     (by decide)⟩

theorem strLen_eq_zero_iff (s : Str) : strLen s = 0 ↔ s = [] := by
  rw [strLen_eq_length]
  simp

/-- C7: with differing source and target languages and a non-empty
master script, the adapter performs one generation call; if the stripped
output is under 50% of the original length it performs exactly one
emphatic retry and returns the retry's stripped result regardless of its
own ratio; an output at or above 50% (even outside the 90-110% band) is
returned with no retry. -/
theorem C7_adaptation_retry (gen : Str → Str) (roteiroMaster idiomaMaster idiomaAlvo : Str)
    (cfg : CulturalConfig) (basePrompt : Str)
    (hlang : idiomaMaster ≠ idiomaAlvo) (hne : roteiroMaster ≠ []) :
    (2 * strLen (pyStrip (gen (promptAdaptacao roteiroMaster idiomaMaster idiomaAlvo cfg
        basePrompt))) < strLen roteiroMaster →
      adaptar_culturalmente gen roteiroMaster idiomaMaster idiomaAlvo cfg basePrompt =
        some (pyStrip (gen (promptRetryAdaptacao roteiroMaster idiomaAlvo)),
          [promptAdaptacao roteiroMaster idiomaMaster idiomaAlvo cfg basePrompt,
           promptRetryAdaptacao roteiroMaster idiomaAlvo])) ∧
    (strLen roteiroMaster ≤ 2 * strLen (pyStrip (gen (promptAdaptacao roteiroMaster
        idiomaMaster idiomaAlvo cfg basePrompt))) →
      adaptar_culturalmente gen roteiroMaster idiomaMaster idiomaAlvo cfg basePrompt =
        some (pyStrip (gen (promptAdaptacao roteiroMaster idiomaMaster idiomaAlvo cfg
          basePrompt)),
          [promptAdaptacao roteiroMaster idiomaMaster idiomaAlvo cfg basePrompt])) := by
  have h0 : ¬ strLen roteiroMaster = 0 := by
    rw [strLen_eq_zero_iff]
    exact hne
  constructor
  · intro hratio
    rw [adaptar_culturalmente, if_neg hlang, if_neg h0, if_pos hratio]
  · intro hratio
    rw [adaptar_culturalmente, if_neg hlang, if_neg h0, if_neg (by omega)]

theorem C7_adaptation_retry_witness :
    adaptar_culturalmente genShortOut "abcdefgh".data "fr".data "pt".data
        ⟨none, none, none⟩ [] =
      some (pyStrip (genShortOut (promptRetryAdaptacao "abcdefgh".data "pt".data)),
        [promptAdaptacao "abcdefgh".data "fr".data "pt".data ⟨none, none, none⟩ [],
         promptRetryAdaptacao "abcdefgh".data "pt".data]) :=
  (C7_adaptation_retry genShortOut "abcdefgh".data "fr".data "pt".data
    ⟨none, none, none⟩ [] (by decide) (by decide)).1 (by decide)

theorem sumLen_cons (x : Str) (l : List Str) : sumLen (x :: l) = x.length + sumLen l := by
  simp [sumLen]

theorem length_dropWhile_le (p : Char → Bool) :
    ∀ (l : Str), (l.dropWhile p).length ≤ l.length := by
  intro l
  induction l with
  | nil => simp
  | cons a as ih =>
    by_cases hp : p a
    · rw [List.dropWhile_cons_of_pos hp]
      simp only [List.length_cons]
      omega
    · rw [List.dropWhile_cons_of_neg hp]

theorem pyStrip_length_le (s : Str) : (pyStrip s).length ≤ s.length := by
  rw [pyStrip]
  calc (((s.dropWhile isPySpace).reverse.dropWhile isPySpace).reverse).length
      = ((s.dropWhile isPySpace).reverse.dropWhile isPySpace).length := by
        rw [List.length_reverse]
    _ ≤ (s.dropWhile isPySpace).reverse.length := length_dropWhile_le _ _
    _ = (s.dropWhile isPySpace).length := by rw [List.length_reverse]
    _ ≤ s.length := length_dropWhile_le _ _

theorem reSubAux_length_le (matchAt : Str → Option Nat) :
    ∀ (fuel : Nat) (s : Str), (reSubAux matchAt fuel s).length ≤ s.length := by
  intro fuel
  induction fuel with
  | zero => intro s; rw [reSubAux]
  | succ n ih =>
    intro s
    cases s with
    | nil => rw [reSubAux]
    | cons c rest =>
      rw [reSubAux]
      cases matchAt (c :: rest) with
      | none =>
        show (c :: reSubAux matchAt n rest).length ≤ (c :: rest).length
        simp only [List.length_cons]
        exact Nat.succ_le_succ (ih rest)
      | some mlen =>
        show (if mlen = 0 then c :: reSubAux matchAt n rest
          else reSubAux matchAt n ((c :: rest).drop mlen)).length ≤ (c :: rest).length
        by_cases h0 : mlen = 0
        · rw [if_pos h0]
          simp only [List.length_cons]
          exact Nat.succ_le_succ (ih rest)
        · rw [if_neg h0]
          calc (reSubAux matchAt n ((c :: rest).drop mlen)).length
              ≤ ((c :: rest).drop mlen).length := ih _
            _ ≤ (c :: rest).length := by rw [List.length_drop]; omega

theorem reSubPat_length_le (matchAt : Str → Option Nat) (s : Str) :
    (reSubPat matchAt s).length ≤ s.length :=
  reSubAux_length_le matchAt _ s

theorem sum_filterMap_le (f : Nat → Option (Str × Str)) (g : Nat → Nat) :
    ∀ (is : List Nat), (∀ i ∈ is, ∀ v, f i = some v → (v.2).length ≤ g i) →
      sumLen ((is.filterMap f).map Prod.snd) ≤ (is.map g).sum := by
  intro is
  induction is with
  | nil => intro _; simp [sumLen]
  | cons i rest ih =>
    intro h
    rw [List.filterMap_cons]
    cases hf : f i with
    | none =>
      simp only [List.map_cons, List.sum_cons]
      calc sumLen ((rest.filterMap f).map Prod.snd)
          ≤ (rest.map g).sum := ih (fun j hj => h j (by simp [hj]))
        _ ≤ g i + (rest.map g).sum := Nat.le_add_left _ _
    | some v =>
      simp only [List.map_cons, List.sum_cons, sumLen_cons]
      have h1 := h i (by simp) v hf
      have h2 := ih (fun j hj => h j (by simp [hj]))
      omega

theorem sum_map_const (c : Nat) : ∀ (l : List Nat), (l.map (fun _ => c)).sum = l.length * c := by
  intro l
  induction l with
  | nil => simp
  | cons x rest ih =>
    simp only [List.map_cons, List.sum_cons, List.length_cons, ih]
    rw [Nat.succ_mul]
    omega

/-- C8 (amended): with a marker-free response and positive `count`, the
fallback splits the response into `count` contiguous slices of
`len // count` characters (the last running to the end), strips and
marker-cleans each and drops the empty ones; the parser raises (returns
`none`) exactly when every cleaned slice is empty — so it can raise for
this case (e.g. a whitespace-only response) — and the kept values are
non-empty, at most `count` in number, and their total length is at most
(not exactly) the full response length. -/
theorem C8_variation_fallback (texto : Str) (num : Nat) (hnum : 0 < num)
    (hzero : finditerMarkers texto = []) :
    (gerar_variacoes_roteiro_parse texto num = none ↔ fallbackVariacoes texto num = []) ∧
    (∀ rs, gerar_variacoes_roteiro_parse texto num = some rs →
      rs = fallbackVariacoes texto num ∧
      sumLen (rs.map Prod.snd) ≤ strLen texto ∧
      rs.length ≤ num ∧ ∀ kv ∈ rs, kv.2 ≠ []) := by
  have hunf : gerar_variacoes_roteiro_parse texto num =
      (if (fallbackVariacoes texto num).isEmpty then none
       else some (fallbackVariacoes texto num)) := by
    rw [gerar_variacoes_roteiro_parse, hzero]
    simp only [List.isEmpty_nil, if_pos]
    rw [if_neg (by omega)]
  have hsum : sumLen ((fallbackVariacoes texto num).map Prod.snd) ≤ strLen texto := by
    rw [fallbackVariacoes]
    obtain ⟨k, rfl⟩ : ∃ k, num = k + 1 := ⟨num - 1, by omega⟩
    apply le_trans (sum_filterMap_le _
      (fun i => if i < k + 1 - 1 then strLen texto / (k + 1)
        else strLen texto - (k + 1 - 1) * (strLen texto / (k + 1))) _ ?_)
    · rw [List.range_succ, List.map_append, List.sum_append]
      have hmapeq : (List.range k).map (fun i => if i < k + 1 - 1 then strLen texto / (k + 1)
          else strLen texto - (k + 1 - 1) * (strLen texto / (k + 1))) =
          (List.range k).map (fun _ => strLen texto / (k + 1)) := by
        apply List.map_congr_left
        intro i hi
        rw [List.mem_range] at hi
        rw [if_pos (by omega)]
      rw [hmapeq, sum_map_const, List.length_range]
      simp only [List.map_cons, List.map_nil, List.sum_cons, List.sum_nil,
        Nat.add_sub_cancel]
      rw [if_neg (by omega)]
      have hdiv : (k + 1) * (strLen texto / (k + 1)) ≤ strLen texto := by
        rw [Nat.mul_comm]
        exact Nat.div_mul_le_self _ _
      have hk : k * (strLen texto / (k + 1)) ≤ (k + 1) * (strLen texto / (k + 1)) :=
        Nat.mul_le_mul_right _ (by omega)
      omega
    · intro i hi v hv
      rw [List.mem_range] at hi
      beta_reduce
      by_cases hcase : i < k + 1 - 1
      · rw [if_pos hcase]
        by_cases hemp : (pyStrip (reSubPat (fun l => (matchMarkerAt l).map Prod.fst)
            (pyStrip (pySlice texto (i * (strLen texto / (k + 1)))
              (if i < k + 1 - 1 then (i + 1) * (strLen texto / (k + 1))
               else strLen texto))))).isEmpty
        · rw [if_pos hemp] at hv; exact absurd hv (by simp)
        · rw [if_neg hemp] at hv
          have hv2 : v.2 = pyStrip (reSubPat (fun l => (matchMarkerAt l).map Prod.fst)
              (pyStrip (pySlice texto (i * (strLen texto / (k + 1)))
                (if i < k + 1 - 1 then (i + 1) * (strLen texto / (k + 1))
                 else strLen texto)))) := by
            simp only [Option.some.injEq] at hv
            rw [← hv]
          rw [hv2, if_pos hcase]
          calc (pyStrip (reSubPat (fun l => (matchMarkerAt l).map Prod.fst)
                (pyStrip (pySlice texto (i * (strLen texto / (k + 1)))
                  ((i + 1) * (strLen texto / (k + 1))))))).length
              ≤ (reSubPat (fun l => (matchMarkerAt l).map Prod.fst)
                (pyStrip (pySlice texto (i * (strLen texto / (k + 1)))
                  ((i + 1) * (strLen texto / (k + 1)))))).length := pyStrip_length_le _
            _ ≤ (pyStrip (pySlice texto (i * (strLen texto / (k + 1)))
                  ((i + 1) * (strLen texto / (k + 1))))).length := reSubPat_length_le _ _
            _ ≤ (pySlice texto (i * (strLen texto / (k + 1)))
                  ((i + 1) * (strLen texto / (k + 1)))).length := pyStrip_length_le _
            _ ≤ (i + 1) * (strLen texto / (k + 1)) - i * (strLen texto / (k + 1)) := by
                rw [pySlice]
                exact List.length_take_le _ _
            _ ≤ strLen texto / (k + 1) := by
                generalize strLen texto / (k + 1) = q
                rw [Nat.succ_mul]
                omega
      · rw [if_neg hcase]
        by_cases hemp : (pyStrip (reSubPat (fun l => (matchMarkerAt l).map Prod.fst)
            (pyStrip (pySlice texto (i * (strLen texto / (k + 1)))
              (if i < k + 1 - 1 then (i + 1) * (strLen texto / (k + 1))
               else strLen texto))))).isEmpty
        · rw [if_pos hemp] at hv; exact absurd hv (by simp)
        · rw [if_neg hemp] at hv
          have hv2 : v.2 = pyStrip (reSubPat (fun l => (matchMarkerAt l).map Prod.fst)
              (pyStrip (pySlice texto (i * (strLen texto / (k + 1)))
                (if i < k + 1 - 1 then (i + 1) * (strLen texto / (k + 1))
                 else strLen texto)))) := by
            simp only [Option.some.injEq] at hv
            rw [← hv]
          have hieq : i = k := by omega
          rw [hv2, if_neg hcase, hieq]
          calc (pyStrip (reSubPat (fun l => (matchMarkerAt l).map Prod.fst)
                (pyStrip (pySlice texto (k * (strLen texto / (k + 1)))
                  (strLen texto))))).length
              ≤ (reSubPat (fun l => (matchMarkerAt l).map Prod.fst)
                (pyStrip (pySlice texto (k * (strLen texto / (k + 1)))
                  (strLen texto)))).length := pyStrip_length_le _
            _ ≤ (pyStrip (pySlice texto (k * (strLen texto / (k + 1)))
                  (strLen texto))).length := reSubPat_length_le _ _
            _ ≤ (pySlice texto (k * (strLen texto / (k + 1))) (strLen texto)).length :=
                pyStrip_length_le _
            _ ≤ strLen texto - k * (strLen texto / (k + 1)) := by
                rw [pySlice]
                exact List.length_take_le _ _
  refine ⟨?_, ?_⟩
  · rw [hunf]
    by_cases hfb : fallbackVariacoes texto num = []
    · rw [if_pos (by simp [hfb])]
      simp [hfb]
    · rw [if_neg (by simp [hfb])]
      simp [hfb]
  · intro rs hrs
    rw [hunf] at hrs
    by_cases hfb : fallbackVariacoes texto num = []
    · rw [if_pos (by simp [hfb])] at hrs
      simp at hrs
    · rw [if_neg (by simp [hfb])] at hrs
      have hrseq : rs = fallbackVariacoes texto num := by
        simpa using hrs.symm
      refine ⟨hrseq, by rw [hrseq]; exact hsum, ?_, ?_⟩
      · rw [hrseq, fallbackVariacoes]
        calc ((List.range num).filterMap _).length
            ≤ (List.range num).length := List.length_filterMap_le _ _
          _ = num := List.length_range num
      · intro kv hkv
        rw [hrseq, fallbackVariacoes] at hkv
        obtain ⟨i, _, hsome⟩ := List.mem_filterMap.1 hkv
        by_cases hemp : (pyStrip (reSubPat (fun l => (matchMarkerAt l).map Prod.fst)
            (pyStrip (pySlice texto (i * (strLen texto / num))
              (if i < num - 1 then (i + 1) * (strLen texto / num)
               else strLen texto))))).isEmpty
        · rw [if_pos hemp] at hsome; exact absurd hsome (by simp)
        · rw [if_neg hemp] at hsome
          have : kv.2 = pyStrip (reSubPat (fun l => (matchMarkerAt l).map Prod.fst)
              (pyStrip (pySlice texto (i * (strLen texto / num))
                (if i < num - 1 then (i + 1) * (strLen texto / num)
                 else strLen texto)))) := by
            simp only [Option.some.injEq] at hsome
            rw [← hsome]
          rw [this]
          intro hcontra
          rw [hcontra] at hemp
          simp at hemp

theorem C8_variation_fallback_witness :
    (gerar_variacoes_roteiro_parse "a b".data 2 = none ↔
      fallbackVariacoes "a b".data 2 = []) ∧
    (∀ rs, gerar_variacoes_roteiro_parse "a b".data 2 = some rs →
      rs = fallbackVariacoes "a b".data 2 ∧
      sumLen (rs.map Prod.snd) ≤ strLen "a b".data ∧
      rs.length ≤ 2 ∧ ∀ kv ∈ rs, kv.2 ≠ []) :=
  C8_variation_fallback "a b".data 2 (by decide) (by decide)

/-- C8 counterexample: a whitespace-only response with zero markers
makes every fallback slice strip to empty, so the parser raises (modelled
as `none`) — refuting the claim that this case never raises; the slices
also do not sum to the full response length once stripped. -/
theorem C8_counterexample :
    finditerMarkers "   ".data = [] ∧
    gerar_variacoes_roteiro_parse "   ".data 2 = none := by
  decide

/-! ### C10: variation keys follow marker order, ignoring captured labels -/

theorem parseWithMarkersAux_cons (texto : Str) (i : Nat) (m : Nat × Nat × Str)
    (rest : List (Nat × Nat × Str)) :
    parseWithMarkersAux texto i (m :: rest) =
      (if (cleanSpanVar (pySlice texto m.2.1 (nextStart texto rest))).isEmpty then
        parseWithMarkersAux texto (i + 1) rest
      else ("variacao_".data ++ natToStr (i + 1),
        cleanSpanVar (pySlice texto m.2.1 (nextStart texto rest))) ::
        parseWithMarkersAux texto (i + 1) rest) := by
  cases rest <;> rfl

theorem spansOfMarkers_cons (texto : Str) (m : Nat × Nat × Str)
    (rest : List (Nat × Nat × Str)) :
    spansOfMarkers texto (m :: rest) =
      cleanSpanVar (pySlice texto m.2.1 (nextStart texto rest)) ::
        spansOfMarkers texto rest := by
  cases rest <;> rfl

theorem parseWithMarkersAux_enum (texto : Str) :
    ∀ (ms : List (Nat × Nat × Str)) (i : Nat),
    parseWithMarkersAux texto i ms =
      (List.enumFrom i (spansOfMarkers texto ms)).filterMap
        (fun p => if p.2.isEmpty then none
          else some ("variacao_".data ++ natToStr (p.1 + 1), p.2)) := by
  intro ms
  induction ms with
  | nil => intro i; rfl
  | cons m rest ih =>
    intro i
    rw [parseWithMarkersAux_cons, spansOfMarkers_cons]
    have henum : List.enumFrom i
        (cleanSpanVar (pySlice texto m.2.1 (nextStart texto rest)) ::
          spansOfMarkers texto rest) =
        (i, cleanSpanVar (pySlice texto m.2.1 (nextStart texto rest))) ::
          List.enumFrom (i + 1) (spansOfMarkers texto rest) := rfl
    rw [henum]
    by_cases hemp : (cleanSpanVar (pySlice texto m.2.1 (nextStart texto rest))).isEmpty
    · rw [if_pos hemp, ih]
      have hf : (fun p : Nat × Str => if p.2.isEmpty then none
          else some ("variacao_".data ++ natToStr (p.1 + 1), p.2))
          (i, cleanSpanVar (pySlice texto m.2.1 (nextStart texto rest))) = none := by
        simp only [hemp, if_pos]
      rw [@List.filterMap_cons_none (Nat × Str) (Str × Str)
        (fun p => if p.2.isEmpty then none
          else some ("variacao_".data ++ natToStr (p.1 + 1), p.2))
        (i, cleanSpanVar (pySlice texto m.2.1 (nextStart texto rest)))
        (List.enumFrom (i + 1) (spansOfMarkers texto rest)) hf]
    · rw [if_neg hemp, ih]
      have hf : (fun p : Nat × Str => if p.2.isEmpty then none
          else some ("variacao_".data ++ natToStr (p.1 + 1), p.2))
          (i, cleanSpanVar (pySlice texto m.2.1 (nextStart texto rest))) =
          some ("variacao_".data ++ natToStr (i + 1),
            cleanSpanVar (pySlice texto m.2.1 (nextStart texto rest))) := by
        simp only [hemp]
        rw [if_neg (by simp [hemp])]
      rw [@List.filterMap_cons_some (Nat × Str) (Str × Str)
        (fun p => if p.2.isEmpty then none
          else some ("variacao_".data ++ natToStr (p.1 + 1), p.2))
        (i, cleanSpanVar (pySlice texto m.2.1 (nextStart texto rest)))
        (List.enumFrom (i + 1) (spansOfMarkers texto rest))
        ("variacao_".data ++ natToStr (i + 1),
          cleanSpanVar (pySlice texto m.2.1 (nextStart texto rest))) hf]

theorem spansOfMarkers_label_irrel (texto : Str) :
    ∀ (ms ms2 : List (Nat × Nat × Str)),
    ms.map (fun m => (m.1, m.2.1)) = ms2.map (fun m => (m.1, m.2.1)) →
    spansOfMarkers texto ms = spansOfMarkers texto ms2 := by
  intro ms
  induction ms with
  | nil =>
    intro ms2 h
    cases ms2 with
    | nil => rfl
    | cons b bs => simp at h
  | cons m rest ih =>
    intro ms2 h
    cases ms2 with
    | nil => simp at h
    | cons m2 rest2 =>
      simp only [List.map_cons, List.cons.injEq, Prod.mk.injEq] at h
      obtain ⟨⟨h1, h2⟩, h3⟩ := h
      have hns : nextStart texto rest = nextStart texto rest2 := by
        cases rest with
        | nil =>
          cases rest2 with
          | nil => rfl
          | cons d ds => simp at h3
        | cons c cs =>
          cases rest2 with
          | nil => simp at h3
          | cons d ds =>
            simp only [List.map_cons, List.cons.injEq, Prod.mk.injEq] at h3
            show c.1 = d.1
            exact h3.1.1
      rw [spansOfMarkers_cons, spansOfMarkers_cons, h2, hns, ih rest2 h3]

set_option maxRecDepth 100000 in
/-- C10: when the combined response contains at least one variation
marker, the parser takes the marker branch: a returned mapping is exactly
the nonempty cleaned spans of the markers in order of appearance, keyed
`variacao_(position+1)` by each marker's position index — and the result
is invariant under changing every marker's captured numeric label, so the
label is ignored for key assignment. -/
theorem C10_variation_keys (texto : Str) (num : Nat)
    (hms : finditerMarkers texto ≠ []) :
    (∀ rs, gerar_variacoes_roteiro_parse texto num = some rs →
      rs = (List.enumFrom 0 (spansOfMarkers texto (finditerMarkers texto))).filterMap
        (fun p => if p.2.isEmpty then none
          else some ("variacao_".data ++ natToStr (p.1 + 1), p.2))) ∧
    (∀ ms2 : List (Nat × Nat × Str),
      (finditerMarkers texto).map (fun m => (m.1, m.2.1)) =
        ms2.map (fun m => (m.1, m.2.1)) →
      parseWithMarkersAux texto 0 (finditerMarkers texto) =
        parseWithMarkersAux texto 0 ms2) := by
  constructor
  · intro rs hrs
    rw [gerar_variacoes_roteiro_parse] at hrs
    rw [if_neg (by simp [hms])] at hrs
    by_cases hpe : (parseWithMarkersAux texto 0 (finditerMarkers texto)).isEmpty
    · rw [if_pos hpe] at hrs
      exact absurd hrs (by simp)
    · rw [if_neg hpe] at hrs
      simp only [Option.some.injEq] at hrs
      rw [← hrs, parseWithMarkersAux_enum]
  · intro ms2 h
    rw [parseWithMarkersAux_enum, parseWithMarkersAux_enum,
      spansOfMarkers_label_irrel texto (finditerMarkers texto) ms2 h]

set_option maxRecDepth 100000 in
theorem C10_variation_keys_witness :
    (finditerMarkers "[=== VARIAÇÃO 3 ===] Olá".data ≠ [] ∧
      ((∀ rs, gerar_variacoes_roteiro_parse "[=== VARIAÇÃO 3 ===] Olá".data 2 = some rs →
        rs = (List.enumFrom 0
            (spansOfMarkers "[=== VARIAÇÃO 3 ===] Olá".data
              (finditerMarkers "[=== VARIAÇÃO 3 ===] Olá".data))).filterMap
          (fun p => if p.2.isEmpty then none
            else some ("variacao_".data ++ natToStr (p.1 + 1), p.2))) ∧
       (∀ ms2 : List (Nat × Nat × Str),
        (finditerMarkers "[=== VARIAÇÃO 3 ===] Olá".data).map (fun m => (m.1, m.2.1)) =
          ms2.map (fun m => (m.1, m.2.1)) →
        parseWithMarkersAux "[=== VARIAÇÃO 3 ===] Olá".data 0
            (finditerMarkers "[=== VARIAÇÃO 3 ===] Olá".data) =
          parseWithMarkersAux "[=== VARIAÇÃO 3 ===] Olá".data 0 ms2))) ∧
    finditerMarkers "[=== VARIAÇÃO 3 ===] Olá".data = [(0, 20, "3".data)] ∧
    gerar_variacoes_roteiro_parse "[=== VARIAÇÃO 3 ===] Olá".data 2 =
      some [("variacao_1".data, "Olá".data)] ∧
    parseWithMarkersAux "[=== VARIAÇÃO 3 ===] Olá".data 0 [(0, 20, "7".data)] =
      [("variacao_1".data, "Olá".data)] :=
  ⟨⟨by decide, C10_variation_keys "[=== VARIAÇÃO 3 ===] Olá".data 2 (by decide)⟩,
   by decide, by decide, by decide⟩

end BoltIA
